import Mathlib

/-!
Shallow embedding of the wedeploy-sdk-go request builder (files
`wedeploy.go`, `launchpad.go`, `urilib`) together with the parts of the
Go standard library the builder leans on (`strings`, `net/url`,
`encoding/base64`, `net/http` header maps).  Strings are modelled as
lists of characters; machine integers that can only hold small
non-negative quantities (status codes, positions) are `Nat`.
The HTTP transport is an external collaborator and is modelled as an
oracle outcome passed to the terminal action.
-/

/-- Strings of the Go program are modelled as lists of characters. -/
abbrev Str := List Char

namespace urilib

/-- Model of `strings.TrimPrefix(path, "/")`: removes one leading slash
when present, otherwise returns the string unchanged. -/
def trimPrefixSlash : Str → Str
  | [] => []
  | c :: rest => if c = '/' then rest else c :: rest

/-- Model of `strings.TrimSuffix(path, "/")`: removes one trailing slash
when present, otherwise returns the string unchanged. -/
def trimSuffixSlash (s : Str) : Str :=
  (trimPrefixSlash s.reverse).reverse

/-- Model of `strings.Join(l, sep)` for a one-character separator. -/
def joinChar (sep : Char) : List Str → Str
  | [] => []
  | [s] => s
  | s :: rest => s ++ sep :: joinChar sep rest

/-- ResolvePath from urilib: each path is trimmed with
`TrimPrefix(path, "/")` then `TrimSuffix(path, "/")`, paths that end up
empty are skipped, and the remaining paths are joined with `"/"`. -/
def ResolvePath (paths : List Str) : Str :=
  joinChar '/' (((paths.map fun p => trimSuffixSlash (trimPrefixSlash p)).filter
    fun p => p ≠ []))

end urilib

example : urilib.ResolvePath ["http://x/y".toList, "a/b/c".toList] = "http://x/y/a/b/c".toList := by
  decide

example : urilib.ResolvePath ["a".toList, "/b/".toList, "c".toList] = "a/b/c".toList := by
  decide

namespace gostd

/-- Model of `strings.Split(s, sep)` for a one-character separator: the
result always has at least one element, and splitting the glue of
`urilib.joinChar` undoes it. -/
def splitOnChar (sep : Char) : Str → List Str
  | [] => [[]]
  | c :: rest =>
    let r := splitOnChar sep rest
    if c = sep then [] :: r else (c :: r.headD []) :: r.tail

/-- Model of `strings.Cut(s, sep)` for a one-character separator: splits
at the first occurrence, returning the whole string and an empty
remainder when the separator is absent (Go additionally returns a
`found` flag that the callers modelled here ignore). -/
def cutChar (sep : Char) : Str → Str × Str
  | [] => ([], [])
  | c :: rest =>
    if c = sep then
      ([], rest)
    else
      let p := cutChar sep rest
      (c :: p.1, p.2)

/-- Lexicographic comparison of strings by character code, as used by
`sort.Strings` on the keys of `url.Values.Encode`. -/
def lexLE : Str → Str → Bool
  | [], _ => true
  | _ :: _, [] => false
  | a :: as, b :: bs => if a = b then lexLE as bs else decide (a < b)

/-- One step of a stable insertion sort on key-value pairs ordered by
key: the new pair goes after every pair whose key is ≤ its own. -/
def insertPair (acc : List (Str × Str)) (p : Str × Str) : List (Str × Str) :=
  match acc with
  | [] => [p]
  | q :: t => if lexLE q.1 p.1 then q :: insertPair t p else p :: q :: t

/-- Stable sort of key-value pairs by key.  `url.Values` is a Go map
whose `Encode` emits keys in sorted order and, within one key, values in
occurrence order; a pair list stably sorted by key yields the same
sequence of `k=v` atoms. -/
def sortByKey (l : List (Str × Str)) : List (Str × Str) :=
  l.foldl insertPair []

/-- Model of `url.ParseQuery` (the code behind `u.Query()`): the raw
query is split on `&`, empty segments are skipped, and each segment is
cut at its first `=` into key and value.  Percent-unescaping is not
modelled; theorems restrict keys and values to characters that escaping
leaves unchanged. -/
def parseQuery (raw : Str) : List (Str × Str) :=
  ((splitOnChar '&' raw).filter fun seg => seg ≠ []).map (cutChar '=')

/-- Model of `url.Values.Encode`: pairs sorted by key and joined as
`k=v` atoms with `&`.  Percent-escaping is not modelled; theorems
restrict keys and values to characters that escaping leaves unchanged. -/
def encodeValues (q : List (Str × Str)) : Str :=
  urilib.joinChar '&' ((sortByKey q).map fun p => p.1 ++ '=' :: p.2)

/-- Model of `url.Values.Set(k, v)` on the pair-list representation:
every pair with key `k` is dropped and the single pair `(k, v)` is
recorded (its position is immaterial, `Encode` sorts by key). -/
def setValues (q : List (Str × Str)) (k v : Str) : List (Str × Str) :=
  (q.filter fun p => p.1 ≠ k) ++ [(k, v)]

/-- Model of `url.Parse` restricted to the URLs of this development:
parsing fails when the URL begins with `:` (Go reports `missing
protocol scheme`, the failure the repository tests exercise with
`":wrong-schema"`); on success the URL is cut at its first `?` into the
part before the query and the raw query.  Other failure modes (control
characters, invalid percent escapes) and fragment handling are not
modelled. -/
def parseURL (s : Str) : Option (Str × Str) :=
  match s with
  | [] => some (cutChar '?' [])
  | c :: rest => if c = ':' then none else some (cutChar '?' (c :: rest))

/-- Characters that both query escaping and form encoding leave
unchanged (a subset of the unreserved characters of Go `net/url`). -/
def plainChar (c : Char) : Bool := c.isAlphanum

/-- Strings made only of characters that URL escaping leaves alone. -/
def plainStr (s : Str) : Bool := s.all plainChar

/-- Alphabet of `encoding/base64.StdEncoding`. -/
def b64Alphabet : Str :=
  "ABCDEFGHIJKLMNOPQRSTUVWXYZabcdefghijklmnopqrstuvwxyz0123456789+/".toList

/-- Character of the standard base64 alphabet at a sextet value. -/
def b64Char (n : Nat) : Char := b64Alphabet.getD n 'A'

/-- Model of `base64.StdEncoding.EncodeToString` on a byte list:
3-byte groups become 4 sextet characters, with `=` padding for a short
final group. -/
def base64Encode : List Nat → Str
  | [] => []
  | [a] => [b64Char (a / 4), b64Char (a % 4 * 16), '=', '=']
  | [a, b] => [b64Char (a / 4), b64Char (a % 4 * 16 + b / 16), b64Char (b % 16 * 4), '=']
  | a :: b :: c :: rest =>
    b64Char (a / 4) :: b64Char (a % 4 * 16 + b / 16) ::
      b64Char (b % 16 * 4 + c / 64) :: b64Char (c % 64) :: base64Encode rest

/-- Bytes of a Go string.  Go converts strings to UTF-8 bytes; for the
ASCII strings the theorems quantify over this is the character code. -/
def strBytes (s : Str) : List Nat := s.map Char.toNat

end gostd

example : gostd.base64Encode (gostd.strBytes "admin:safe".toList) = "YWRtaW46c2FmZQ==".toList := by
  decide

example : gostd.encodeValues [("keep".toList, "this".toList), ("x".toList, "i".toList)] = "keep=this&x=i".toList := by
  decide

namespace query

/-- Modelled from the spec: one filter clause of the structured query,
serializing as `{field: {operator, value}}` (wire format §6); the
`query` package itself is not under src/, only its callers and their
tests are.  Values are carried as strings, the shape the repository
tests exercise. -/
structure FilterClause where
  field : Str
  operator : Str
  value : Str
deriving DecidableEq, Repr

/-- Modelled from the spec: one aggregation clause, serializing as
`{name: {operator, name: field}}` (wire format §6). -/
structure AggClause where
  outputName : Str
  operator : Str
  sourceField : Str
deriving DecidableEq, Repr

/-- Modelled from the spec: the query.Builder accumulator — type tag,
filters, sort clauses, aggregations, highlight fields and optional
limit/offset, every field omitted from the JSON while never populated
(§3, §4.2); `limit`/`offset` distinguish never-set from explicit 0. -/
structure Builder where
  type : Option Str
  filter : List FilterClause
  sort : List (Str × Str)
  aggregation : List AggClause
  highlight : List Str
  limit : Option Int
  offset : Option Int
deriving DecidableEq, Repr

/-- Modelled from the spec: `query.New` returns an empty builder. -/
def Builder.new : Builder :=
  ⟨none, [], [], [], [], none, none⟩

/-- Modelled from the spec: `Filter(field, operator, value)` appends a
clause preserving call order (§4.2). -/
def Builder.Filter (q : Builder) (f op v : Str) : Builder :=
  { q with filter := q.filter ++ [⟨f, op, v⟩] }

/-- Modelled from the spec: `Aggregate(name, field, operator)` appends
an aggregation clause preserving call order (§4.2). -/
def Builder.Aggregate (q : Builder) (name field op : Str) : Builder :=
  { q with aggregation := q.aggregation ++ [⟨name, op, field⟩] }

/-- Modelled from the spec: `Sort(field, direction?)` appends a sort
clause, direction defaulting to `"asc"` when omitted (§4.2). -/
def Builder.Sort (q : Builder) (field : Str) (direction : Option Str) : Builder :=
  { q with sort := q.sort ++ [(field, direction.getD "asc".toList)] }

/-- Modelled from the spec: `Count()` sets the type tag to `"count"`. -/
def Builder.Count (q : Builder) : Builder :=
  { q with type := some "count".toList }

/-- Modelled from the spec: `Highlight(field)` adds a highlight field. -/
def Builder.Highlight (q : Builder) (field : Str) : Builder :=
  { q with highlight := q.highlight ++ [field] }

/-- Modelled from the spec: `Limit(n)` overwrites the optional limit;
an explicit 0 is recorded, distinct from never-set (§4.2). -/
def Builder.Limit (q : Builder) (n : Int) : Builder :=
  { q with limit := some n }

/-- Modelled from the spec: `Offset(n)` overwrites the optional offset;
an explicit 0 is recorded, distinct from never-set (§4.2). -/
def Builder.Offset (q : Builder) (n : Int) : Builder :=
  { q with offset := some n }

/-- JSON values occurring in the serialized query: numbers, strings and
arrays of already-rendered elements (the clause objects have a fixed
shape and are rendered directly). -/
inductive JVal where
  | num (n : Int)
  | str (s : Str)
  | rawArr (elems : List Str)
deriving DecidableEq, Repr

/-- Decimal rendering of an integer, as `encoding/json` renders Go
ints. -/
def intToStr (n : Int) : Str :=
  if n < 0 then '-' :: Nat.toDigits 10 n.natAbs else Nat.toDigits 10 n.toNat

/-- JSON string literal (escaping is not modelled; the development only
renders plain field names and operators). -/
def quoteStr (s : Str) : Str := '"' :: s ++ ['"']

/-- Rendering of a JSON value. -/
def renderJVal : JVal → Str
  | .num n => intToStr n
  | .str s => quoteStr s
  | .rawArr es => '[' :: urilib.joinChar ',' es ++ [']']

/-- One-key JSON object `{key: inner}` rendered directly. -/
def renderObj1 (key : Str) (inner : Str) : Str :=
  '\x7b' :: quoteStr key ++ ':' :: inner ++ ['\x7d']

/-- Rendering of a filter clause: `{field: {"operator": op, "value": v}}`. -/
def renderFilterClause (c : FilterClause) : Str :=
  renderObj1 c.field
    ('\x7b' :: quoteStr "operator".toList ++ ':' :: quoteStr c.operator ++
      ',' :: quoteStr "value".toList ++ ':' :: quoteStr c.value ++ ['\x7d'])

/-- Rendering of an aggregation clause:
`{name: {"operator": op, "name": field}}` (wire format §6). -/
def renderAggClause (c : AggClause) : Str :=
  renderObj1 c.outputName
    ('\x7b' :: quoteStr "operator".toList ++ ':' :: quoteStr c.operator ++
      ',' :: quoteStr "name".toList ++ ':' :: quoteStr c.sourceField ++ ['\x7d'])

/-- Modelled from the spec: the key-value pairs of the serialized query
object, holding only the populated fields, in the fixed key order
`type, filter, sort, aggregation, highlight, limit, offset` (§6); a Go
struct with `omitempty` tags marshals exactly its populated fields in
declaration order. -/
def queryFields (q : Builder) : List (Str × JVal) :=
  (match q.type with
    | some t => [("type".toList, JVal.str t)]
    | none => []) ++
  (if q.filter = [] then [] else
    [("filter".toList, JVal.rawArr (q.filter.map renderFilterClause))]) ++
  (if q.sort = [] then [] else
    [("sort".toList, JVal.rawArr (q.sort.map fun p => renderObj1 p.1 (quoteStr p.2)))]) ++
  (if q.aggregation = [] then [] else
    [("aggregation".toList, JVal.rawArr (q.aggregation.map renderAggClause))]) ++
  (if q.highlight = [] then [] else
    [("highlight".toList, JVal.rawArr (q.highlight.map quoteStr))]) ++
  (match q.limit with
    | some n => [("limit".toList, JVal.num n)]
    | none => []) ++
  (match q.offset with
    | some n => [("offset".toList, JVal.num n)]
    | none => [])

/-- Modelled from the spec: `json.Marshal` of the query builder — the
object of its populated fields rendered in order. -/
def marshalQuery (q : Builder) : Str :=
  '\x7b' :: urilib.joinChar ','
    ((queryFields q).map fun f => quoteStr f.1 ++ ':' :: renderJVal f.2) ++ ['\x7d']

/-- First value recorded under a key in an association list. -/
def lookupField (k : Str) : List (Str × JVal) → Option JVal
  | [] => none
  | p :: t => if p.1 = k then some p.2 else lookupField k t

end query

example : query.marshalQuery (query.Builder.new.Limit 10) = "\x7b\"limit\":10\x7d".toList := by
  decide

example : query.marshalQuery (query.Builder.new.Sort "id".toList (some "desc".toList)) =
    "\x7b\"sort\":[\x7b\"id\":\"desc\"\x7d]\x7d".toList := by
  decide

namespace wedeploy

/-- Model of `http.Header`: a map from header name to its list of
values, represented as an association list.  The MIME canonicalization
of keys is not modelled — every key the client uses is already in
canonical form. -/
abbrev Headers := List (Str × List Str)

/-- Model of `http.Header.Set(k, v)`: the key now holds exactly `[v]`. -/
def headerSet (h : Headers) (k v : Str) : Headers :=
  (h.filter fun p => p.1 ≠ k) ++ [(k, [v])]

/-- Model of `http.Header.Add(k, v)`: appends `v` to the values of `k`,
creating the entry when absent. -/
def headerAdd : Headers → Str → Str → Headers
  | [], k, v => [(k, [v])]
  | (k0, vs) :: t, k, v =>
    if k0 = k then (k0, vs ++ [v]) :: t else (k0, vs) :: headerAdd t k v

/-- Model of `http.Header.Get(k)`: the first value recorded under the
key, or nothing (Go returns the empty string) when absent. -/
def headerGet (h : Headers) (k : Str) : Option Str :=
  match h with
  | [] => none
  | (k0, vs) :: t => if k0 = k then vs.head? else headerGet t k

/-- Kind tag of an `io.Reader` distinguishing the concrete types the
client inspects: `*bytes.Buffer` (the type switch in `action`),
`*strings.Reader` (form bodies), `*bytes.Reader` (query bodies) and any
other caller-supplied reader. -/
inductive ReaderKind where
  | bytesBuffer
  | stringsReader
  | bytesReader
  | generic
deriving DecidableEq, Repr

/-- Model of an `io.Reader` with byte contents: `data` is the full
content and `pos` the number of bytes already read; the transport reads
a body to its end. -/
structure Reader where
  kind : ReaderKind
  data : Str
  pos : Nat
deriving DecidableEq, Repr

/-- Unread remainder of a reader, the bytes a transport call consumes. -/
def Reader.remaining (r : Reader) : Str := r.data.drop r.pos

/-- Model of an inbound `http.Response`: status code, header multimap
and body bytes. -/
structure Response where
  StatusCode : Nat
  Header : Headers
  Body : Str
deriving DecidableEq, Repr

/-- Model of an outgoing `http.Request` as built by `http.NewRequest`:
method, URL and headers, with the body carried on the builder. -/
structure Request where
  Method : Str
  URLStr : Str
  Header : Headers
deriving DecidableEq, Repr

/-- Outcome of the transport call `httpClient.Do` — an external
collaborator (spec §1), modelled as an oracle value handed to the
terminal action: either a response or a transport-level error carried
as an opaque label. -/
inductive Outcome where
  | ok (resp : Response)
  | fail (e : Str)
deriving DecidableEq, Repr

/-- Errors a terminal action can surface: the URL parse error of
`http.NewRequest`, the `ErrUnexpectedResponse` sentinel, or a
transport-level error passed through unchanged. -/
inductive Err where
  | urlParse
  | unexpectedResponse
  | transport (e : Str)
deriving DecidableEq, Repr

/-- Sentinel `ErrUnexpectedResponse` of wedeploy.go / launchpad.go. -/
def ErrUnexpectedResponse : Err := .unexpectedResponse

/-- Observable timeout and transport events of one terminal action:
arming of the cancellation timer (`time.AfterFunc` or
`context.WithTimeout`), disarming (`cancelRemainingTimeout` invoking
the cancel function) and the transport call with the body it reads. -/
inductive Event where
  | armTimer (d : Nat)
  | disarm
  | transportCall (sent : Str)
deriving DecidableEq, Repr

/-- UserAgent constant of wedeploy.go. -/
def UserAgent : Str := "WeDeploy/master (+https://wedeploy.com)".toList

/-- The WeDeploy request builder.  The random `ID`, the `createdAt`
timestamp and the `httpClient` pointer are omitted: the first two are
never used for logic (spec §3) and the transport is the oracle
parameter of the actions.  `cancelArmed` models the context-based
variant's `cancelTimeout` field being non-nil. -/
structure WeDeploy where
  URL : Str
  Headers : Headers
  Query : Option query.Builder
  FormValues : Option (List (Str × Str))
  RequestBody : Option Reader
  Request : Option Request
  Response : Option Response
  timeout : Option Nat
  cancelArmed : Bool
deriving DecidableEq, Repr

/-- Model of the constructor `URL(uri, paths...)`: the url is
`urilib.ResolvePath(uri, urilib.ResolvePath(paths...))` and the default
`User-Agent` and `Content-Type` headers are set on a fresh header map. -/
def URL (uri : Str) (paths : List Str) : WeDeploy :=
  { URL := urilib.ResolvePath [uri, urilib.ResolvePath paths]
    Headers := headerSet (headerSet [] "User-Agent".toList UserAgent)
      "Content-Type".toList "application/json".toList
    Query := none
    FormValues := none
    RequestBody := none
    Request := none
    Response := none
    timeout := none
    cancelArmed := false }

/-- Model of `Path(paths...)`: a new builder rooted at the current url. -/
def WeDeploy.Path (w : WeDeploy) (paths : List Str) : WeDeploy :=
  wedeploy.URL w.URL paths

/-- Model of the mutator `Header(key, value)`: appends via `Header.Add`. -/
def WeDeploy.Header (w : WeDeploy) (k v : Str) : WeDeploy :=
  { w with Headers := headerAdd w.Headers k v }

/-- Model of `Auth(token)` (one-argument form). -/
def WeDeploy.Auth1 (w : WeDeploy) (token : Str) : WeDeploy :=
  w.Header "Authorization".toList ("Bearer ".toList ++ token)

/-- Model of `basicAuth(username, password)`. -/
def basicAuth (username password : Str) : Str :=
  gostd.base64Encode (gostd.strBytes (username ++ ':' :: password))

/-- Model of `Auth(user, pass)` (two-argument form). -/
def WeDeploy.Auth2 (w : WeDeploy) (user pass : Str) : WeDeploy :=
  w.Header "Authorization".toList ("Basic ".toList ++ basicAuth user pass)

/-- Model of `Body(body)`: sets the raw request body. -/
def WeDeploy.Body (w : WeDeploy) (r : Reader) : WeDeploy :=
  { w with RequestBody := some r }

/-- Model of `getOrCreateForm` followed by `Add(key, value)` — the
mutator `Form(key, value)`. -/
def WeDeploy.Form (w : WeDeploy) (k v : Str) : WeDeploy :=
  { w with FormValues := some ((w.FormValues.getD []) ++ [(k, v)]) }

/-- Current query of `getOrCreateQuery`: the existing one or a new one. -/
def WeDeploy.getOrCreateQuery (w : WeDeploy) : query.Builder :=
  w.Query.getD query.Builder.new

/-- Model of the query passthrough `Filter(field, op, value)`. -/
def WeDeploy.Filter (w : WeDeploy) (f op v : Str) : WeDeploy :=
  { w with Query := some (w.getOrCreateQuery.Filter f op v) }

/-- Model of the query passthrough `Aggregate(name, field, op)`. -/
def WeDeploy.Aggregate (w : WeDeploy) (name field op : Str) : WeDeploy :=
  { w with Query := some (w.getOrCreateQuery.Aggregate name field op) }

/-- Model of the query passthrough `Sort(field, direction...)`. -/
def WeDeploy.Sort (w : WeDeploy) (f : Str) (dir : Option Str) : WeDeploy :=
  { w with Query := some (w.getOrCreateQuery.Sort f dir) }

/-- Model of the query passthrough `Count()`. -/
def WeDeploy.Count (w : WeDeploy) : WeDeploy :=
  { w with Query := some w.getOrCreateQuery.Count }

/-- Model of the query passthrough `Highlight(field)`. -/
def WeDeploy.Highlight (w : WeDeploy) (f : Str) : WeDeploy :=
  { w with Query := some (w.getOrCreateQuery.Highlight f) }

/-- Model of the query passthrough `Limit(limit)`. -/
def WeDeploy.Limit (w : WeDeploy) (n : Int) : WeDeploy :=
  { w with Query := some (w.getOrCreateQuery.Limit n) }

/-- Model of the query passthrough `Offset(offset)`. -/
def WeDeploy.Offset (w : WeDeploy) (n : Int) : WeDeploy :=
  { w with Query := some (w.getOrCreateQuery.Offset n) }

/-- Model of `Timeout(timeout)`. -/
def WeDeploy.Timeout (w : WeDeploy) (d : Nat) : WeDeploy :=
  { w with timeout := some d }

/-- Model of the mutator `Param(key, value)` at the url-string level:
parse the url, overwrite the named parameter via `Values.Set`,
re-encode; on a parse failure the url is returned unchanged (the
deliberate silent-failure policy). -/
def ParamStr (url k v : Str) : Str :=
  match gostd.parseURL url with
  | none => url
  | some (pre, raw) =>
    pre ++ '?' :: gostd.encodeValues (gostd.setValues (gostd.parseQuery raw) k v)

/-- Model of `Param(key, value)` on the builder. -/
def WeDeploy.Param (w : WeDeploy) (k v : Str) : WeDeploy :=
  { w with URL := ParamStr w.URL k v }

/-- Model of `Params()`: the decoded parameter list of the url, or
nothing (Go returns nil) when the url does not parse. -/
def WeDeploy.Params (w : WeDeploy) : Option (List (Str × Str)) :=
  (gostd.parseURL w.URL).map fun pr => gostd.parseQuery pr.2

/-- Body-resolution and request construction shared by `setupAction` of
wedeploy.go, of its context-based variant and of launchpad.go: non-nil
form values set the body to their encoding and the Content-Type header
to the form MIME type; a non-nil query then overwrites the body with
its JSON serialization; finally `http.NewRequest` parses the url —
failing with the parse error and leaving the earlier mutations in
place — and the request is recorded.  `json.Marshal` of the modelled
query is total, so the marshal-error return is not reachable here. -/
def setupActionCore (w : WeDeploy) (method : Str) : WeDeploy × Option Err :=
  let w1 := match w.FormValues with
    | some fv =>
      { w with
          RequestBody := some ⟨.stringsReader, gostd.encodeValues fv, 0⟩
          Headers := headerSet w.Headers "Content-Type".toList
            "application/x-www-form-urlencoded".toList }
    | none => w
  let w2 := match w1.Query with
    | some q => { w1 with RequestBody := some ⟨.bytesReader, query.marshalQuery q, 0⟩ }
    | none => w1
  match gostd.parseURL w2.URL with
  | none => (w2, some .urlParse)
  | some _ => ({ w2 with Request := some ⟨method, w2.URL, w2.Headers⟩ }, none)

/-- Model of `setupAction` of wedeploy.go (timer variant): after the
shared setup, `setupRequestTimeout` arms a `time.AfterFunc` timer for a
non-zero timeout; the timer is never held for later disarming. -/
def setupActionV1 (w : WeDeploy) (method : Str) : WeDeploy × Option Err × List Event :=
  match setupActionCore w method with
  | (w1, some e) => (w1, some e, [])
  | (w1, none) =>
    match w1.timeout with
    | some d => if d ≠ 0 then (w1, none, [Event.armTimer d]) else (w1, none, [])
    | none => (w1, none, [])

/-- Model of `setupAction` of the context-based wedeploy variant: after
the shared setup, `setupRequestTimeout` installs `context.WithTimeout`
for a non-zero timeout and keeps the cancel function in the builder. -/
def setupActionV2 (w : WeDeploy) (method : Str) : WeDeploy × Option Err × List Event :=
  match setupActionCore w method with
  | (w1, some e) => (w1, some e, [])
  | (w1, none) =>
    match w1.timeout with
    | some d =>
      if d ≠ 0 then ({ w1 with cancelArmed := true }, none, [Event.armTimer d])
      else (w1, none, [])
    | none => (w1, none, [])

/-- Model of `cancelRemainingTimeout`: invokes the stored cancel
function when one was installed, emitting the disarm event. -/
def cancelRemainingTimeout (w : WeDeploy) : List Event :=
  if w.cancelArmed then [Event.disarm] else []

/-- Reading of the request body by the transport: the body reader, when
present, is consumed to its end. -/
def consumeBody (w : WeDeploy) : WeDeploy :=
  { w with RequestBody := w.RequestBody.map fun r => { r with pos := r.data.length } }

/-- Bytes the transport call reads: the unread remainder of the body. -/
def sentBody (w : WeDeploy) : Str :=
  match w.RequestBody with
  | some r => r.remaining
  | none => []

/-- Model of `action(method)` of wedeploy.go (timer variant): run
setup; snapshot the body when it is a `*bytes.Buffer`; call the
transport (which consumes the body and yields the oracle outcome);
restore the snapshot as a fresh buffer; classify the outcome —
transport errors pass through unchanged, a status ≥ 400 becomes
`ErrUnexpectedResponse` with the response kept, otherwise no error. -/
def actionV1 (w : WeDeploy) (method : Str) (t : Outcome) :
    WeDeploy × Option Err × List Event :=
  match setupActionV1 w method with
  | (w1, some e, ev) => (w1, some e, ev)
  | (w1, none, ev) =>
    let bb : Option Str := match w1.RequestBody with
      | some r => if r.kind = .bytesBuffer then some r.remaining else none
      | none => none
    let sent := sentBody w1
    let w2 := consumeBody w1
    let w3 := match t with
      | .ok resp => { w2 with Response := some resp }
      | .fail _ => { w2 with Response := none }
    let w4 := match bb with
      | some bs => { w3 with RequestBody := some ⟨.bytesBuffer, bs, 0⟩ }
      | none => w3
    let errOut : Option Err := match t with
      | .fail e => some (.transport e)
      | .ok resp => if 400 ≤ resp.StatusCode then some ErrUnexpectedResponse else none
    (w4, errOut, ev ++ [Event.transportCall sent])

/-- Model of `action(method)` of the context-based wedeploy variant:
like the timer variant, and additionally `cancelRemainingTimeout` runs
on every exit path — right after a setup failure, and right after the
transport call returns. -/
def actionV2 (w : WeDeploy) (method : Str) (t : Outcome) :
    WeDeploy × Option Err × List Event :=
  match setupActionV2 w method with
  | (w1, some e, ev) => (w1, some e, ev ++ cancelRemainingTimeout w1)
  | (w1, none, ev) =>
    let bb : Option Str := match w1.RequestBody with
      | some r => if r.kind = .bytesBuffer then some r.remaining else none
      | none => none
    let sent := sentBody w1
    let w2 := consumeBody w1
    let w3 := match t with
      | .ok resp => { w2 with Response := some resp }
      | .fail _ => { w2 with Response := none }
    let w4 := match bb with
      | some bs => { w3 with RequestBody := some ⟨.bytesBuffer, bs, 0⟩ }
      | none => w3
    let errOut : Option Err := match t with
      | .fail e => some (.transport e)
      | .ok resp => if 400 ≤ resp.StatusCode then some ErrUnexpectedResponse else none
    (w4, errOut, ev ++ [Event.transportCall sent] ++ cancelRemainingTimeout w1)

/-- Model of `action(method)` of launchpad.go: the shared setup, the
transport call and the outcome classification, with no timeout handling
and no buffer restore. -/
def actionLaunchpad (w : WeDeploy) (method : Str) (t : Outcome) : WeDeploy × Option Err :=
  match setupActionCore w method with
  | (w1, some e) => (w1, some e)
  | (w1, none) =>
    let w2 := consumeBody w1
    let w3 := match t with
      | .ok resp => { w2 with Response := some resp }
      | .fail _ => { w2 with Response := none }
    let errOut : Option Err := match t with
      | .fail e => some (.transport e)
      | .ok resp => if 400 ≤ resp.StatusCode then some ErrUnexpectedResponse else none
    (w3, errOut)

/-- Model of the terminal verb `Get()` (timer variant of wedeploy.go). -/
def WeDeploy.Get (w : WeDeploy) (t : Outcome) : WeDeploy × Option Err × List Event :=
  actionV1 w "GET".toList t

/-- Model of the terminal verb `Post()` (timer variant of wedeploy.go). -/
def WeDeploy.Post (w : WeDeploy) (t : Outcome) : WeDeploy × Option Err × List Event :=
  actionV1 w "POST".toList t

end wedeploy

example :
    (wedeploy.URL ("http://example.com/url".toList) []).URL = "http://example.com/url".toList := by
  decide

example :
    ((wedeploy.URL ("http://example.com/url".toList) []).Get
      (.ok ⟨404, [], []⟩)).2.1 = some wedeploy.ErrUnexpectedResponse := by
  decide

namespace urilib

/-- True when the string does not begin with a slash. -/
def noLeadSlash : Str → Bool
  | [] => true
  | c :: _ => c != '/'

/-- True when the string neither begins nor ends with a slash. -/
def noEdgeSlash (s : Str) : Bool := noLeadSlash s && noLeadSlash s.reverse

/-- One TrimPrefix-then-TrimSuffix pass, exactly what `ResolvePath`
applies to each path. -/
def trimOne (s : Str) : Str := trimSuffixSlash (trimPrefixSlash s)

/-- Removal of every leading slash (spec-side helper for claim C4). -/
def trimAllPrefixSlash : Str → Str
  | [] => []
  | c :: rest => if c = '/' then trimAllPrefixSlash rest else c :: rest

/-- Removal of every leading and every trailing slash — the natural
reading of the per-segment trimming in claim C4's words. -/
def trimAllSlash (s : Str) : Str :=
  (trimAllPrefixSlash (trimAllPrefixSlash s).reverse).reverse

/-- Follows the words of claim C4 (the spec side of the refinement
comparison), not the source: each segment is trimmed of its leading and
trailing slashes, segments that become empty are dropped, and the base
and the remaining segments are joined with `/`. -/
def specJoinedURL (base : Str) (paths : List Str) : Str :=
  joinChar '/' (base :: (paths.map trimAllSlash).filter fun p => p ≠ [])

/-- A string shaped as at most one leading and at most one trailing
slash around a core with slash-free edges. -/
def atMostOneEdgeSlash (p : Str) : Prop :=
  ∃ core, noEdgeSlash core = true ∧
    (p = core ∨ p = '/' :: core ∨ p = core ++ ['/'] ∨ p = '/' :: core ++ ['/'])

theorem trimPrefixSlash_of_noLead (s : Str) (h : noLeadSlash s = true) :
    trimPrefixSlash s = s := by
  cases s with
  | nil => rfl
  | cons c t =>
    have hc : c ≠ '/' := by simpa [noLeadSlash] using h
    simp [trimPrefixSlash, hc]

theorem trimAllPrefixSlash_of_noLead (s : Str) (h : noLeadSlash s = true) :
    trimAllPrefixSlash s = s := by
  cases s with
  | nil => rfl
  | cons c t =>
    have hc : c ≠ '/' := by simpa [noLeadSlash] using h
    simp [trimAllPrefixSlash, hc]

theorem trimSuffixSlash_of_noTrail (s : Str) (h : noLeadSlash s.reverse = true) :
    trimSuffixSlash s = s := by
  unfold trimSuffixSlash
  rw [trimPrefixSlash_of_noLead s.reverse h, List.reverse_reverse]

theorem trimSuffixSlash_append_slash (core : Str) :
    trimSuffixSlash (core ++ ['/']) = core := by
  unfold trimSuffixSlash
  rw [List.reverse_append]
  show (trimPrefixSlash ('/' :: core.reverse)).reverse = core
  simp [trimPrefixSlash]

theorem noEdge_parts (core : Str) (h : noEdgeSlash core = true) :
    noLeadSlash core = true ∧ noLeadSlash core.reverse = true := by
  simpa [noEdgeSlash] using h

theorem trimOne_shapes (core : Str) (h : noEdgeSlash core = true) :
    trimOne core = core ∧ trimOne ('/' :: core) = core ∧
      trimOne (core ++ ['/']) = core ∧ trimOne ('/' :: core ++ ['/']) = core := by
  obtain ⟨h1, h2⟩ := noEdge_parts core h
  have hps : trimPrefixSlash (core ++ ['/']) = core ++ ['/'] ∨ core = [] := by
    cases core with
    | nil => exact Or.inr rfl
    | cons c t =>
      have hc : c ≠ '/' := by simpa [noLeadSlash] using h1
      exact Or.inl (by simp [trimPrefixSlash, hc])
  refine ⟨?_, ?_, ?_, ?_⟩
  · unfold trimOne
    rw [trimPrefixSlash_of_noLead core h1, trimSuffixSlash_of_noTrail core h2]
  · unfold trimOne
    have : trimPrefixSlash ('/' :: core) = core := by simp [trimPrefixSlash]
    rw [this, trimSuffixSlash_of_noTrail core h2]
  · unfold trimOne
    rcases hps with hs | hs
    · rw [hs, trimSuffixSlash_append_slash core]
    · subst hs; rfl
  · unfold trimOne
    have : trimPrefixSlash ('/' :: (core ++ ['/'])) = core ++ ['/'] := by
      simp [trimPrefixSlash]
    rw [show ('/' :: core ++ ['/'] : Str) = '/' :: (core ++ ['/']) from rfl, this,
      trimSuffixSlash_append_slash core]

theorem trimAllSlash_shapes (core : Str) (h : noEdgeSlash core = true) :
    trimAllSlash core = core ∧ trimAllSlash ('/' :: core) = core ∧
      trimAllSlash (core ++ ['/']) = core ∧ trimAllSlash ('/' :: core ++ ['/']) = core := by
  obtain ⟨h1, h2⟩ := noEdge_parts core h
  have htail : (trimAllPrefixSlash (core ++ ['/']).reverse).reverse = core := by
    rw [List.reverse_append]
    show (trimAllPrefixSlash ('/' :: core.reverse)).reverse = core
    simp [trimAllPrefixSlash, trimAllPrefixSlash_of_noLead core.reverse h2]
  have hcore : (trimAllPrefixSlash core.reverse).reverse = core := by
    rw [trimAllPrefixSlash_of_noLead core.reverse h2, List.reverse_reverse]
  have hslash : trimAllPrefixSlash (core ++ ['/']) = core ++ ['/'] ∨ core = [] := by
    cases core with
    | nil => exact Or.inr rfl
    | cons c t =>
      have hc : c ≠ '/' := by simpa [noLeadSlash] using h1
      exact Or.inl (by simp [trimAllPrefixSlash, hc])
  refine ⟨?_, ?_, ?_, ?_⟩
  · unfold trimAllSlash
    rw [trimAllPrefixSlash_of_noLead core h1, hcore]
  · unfold trimAllSlash
    rw [show trimAllPrefixSlash ('/' :: core) = trimAllPrefixSlash core by
        simp [trimAllPrefixSlash],
      trimAllPrefixSlash_of_noLead core h1, hcore]
  · unfold trimAllSlash
    rcases hslash with hs | hs
    · rw [hs, htail]
    · subst hs; rfl
  · unfold trimAllSlash
    rw [show trimAllPrefixSlash ('/' :: core ++ ['/']) = trimAllPrefixSlash (core ++ ['/']) by
        simp [trimAllPrefixSlash]]
    rcases hslash with hs | hs
    · rw [hs, htail]
    · subst hs; rfl

theorem trimOne_of_atMostOne (p : Str) (h : atMostOneEdgeSlash p) :
    trimOne p = trimAllSlash p ∧ noEdgeSlash (trimOne p) = true := by
  obtain ⟨core, hcore, hcases⟩ := h
  obtain ⟨t1, t2, t3, t4⟩ := trimOne_shapes core hcore
  obtain ⟨a1, a2, a3, a4⟩ := trimAllSlash_shapes core hcore
  rcases hcases with rfl | rfl | rfl | rfl
  · rw [t1, a1]; exact ⟨rfl, hcore⟩
  · rw [t2, a2]; exact ⟨rfl, hcore⟩
  · rw [t3, a3]; exact ⟨rfl, hcore⟩
  · rw [t4, a4]; exact ⟨rfl, hcore⟩

theorem joinChar_cons_ne (sep : Char) (a : Str) (l : List Str) (h : l ≠ []) :
    joinChar sep (a :: l) = a ++ sep :: joinChar sep l := by
  cases l with
  | nil => exact absurd rfl h
  | cons b t => rfl

theorem noLeadSlash_append (a x : Str) (h : a ≠ []) :
    noLeadSlash (a ++ x) = noLeadSlash a := by
  cases a with
  | nil => exact absurd rfl h
  | cons c t => rfl

theorem joinChar_clean (l : List Str) (hne : l ≠ [])
    (h : ∀ s ∈ l, s ≠ [] ∧ noEdgeSlash s = true) :
    joinChar '/' l ≠ [] ∧ noEdgeSlash (joinChar '/' l) = true := by
  induction l with
  | nil => exact absurd rfl hne
  | cons a t ih =>
    cases t with
    | nil => simpa [joinChar] using h a (by simp)
    | cons b t2 =>
      obtain ⟨hane, haedge⟩ := h a (by simp)
      have ihr := ih (by simp) (fun s hs => h s (by simp [List.mem_cons] at hs ⊢; tauto))
      obtain ⟨hjne, hjedge⟩ := ihr
      rw [joinChar_cons_ne '/' a (b :: t2) (by simp)]
      obtain ⟨ha1, ha2⟩ := noEdge_parts a haedge
      obtain ⟨hj1, hj2⟩ := noEdge_parts _ hjedge
      constructor
      · simp [hane]
      · unfold noEdgeSlash
        rw [noLeadSlash_append a _ hane, List.reverse_append]
        have hrj : (joinChar '/' (b :: t2)).reverse ≠ [] := by
          simpa using hjne
        rw [show ('/' :: joinChar '/' (b :: t2) : Str).reverse
            = (joinChar '/' (b :: t2)).reverse ++ ['/'] by simp,
          List.append_assoc, noLeadSlash_append _ _ hrj]
        simp [ha1, hj2]

theorem resolvePath_eq_trimOne (paths : List Str) :
    ResolvePath paths = joinChar '/' ((paths.map trimOne).filter fun p => p ≠ []) := rfl

end urilib

namespace gostd

theorem splitOnChar_of_not_mem (sep : Char) (s : Str) (h : sep ∉ s) :
    splitOnChar sep s = [s] := by
  induction s with
  | nil => rfl
  | cons c t ih =>
    have hc : c ≠ sep := fun hc => h (hc ▸ List.mem_cons_self c t)
    have ht : sep ∉ t := fun hm => h (List.mem_cons_of_mem c hm)
    unfold splitOnChar
    rw [ih ht]
    simp [hc]

theorem splitOnChar_append (sep : Char) (a rest : Str) (h : sep ∉ a) :
    splitOnChar sep (a ++ sep :: rest) = a :: splitOnChar sep rest := by
  induction a with
  | nil => simp [splitOnChar]
  | cons c t ih =>
    have hc : c ≠ sep := fun hc => h (hc ▸ List.mem_cons_self c t)
    have ht : sep ∉ t := fun hm => h (List.mem_cons_of_mem c hm)
    show splitOnChar sep (c :: (t ++ sep :: rest)) = (c :: t) :: splitOnChar sep rest
    unfold splitOnChar
    rw [ih ht]
    simp only [List.headD_cons, List.tail_cons, if_neg hc]
    cases rest <;> rfl

theorem splitOnChar_joinChar (sep : Char) (parts : List Str) (hne : parts ≠ [])
    (h : ∀ p ∈ parts, sep ∉ p) :
    splitOnChar sep (urilib.joinChar sep parts) = parts := by
  induction parts with
  | nil => exact absurd rfl hne
  | cons a t ih =>
    cases t with
    | nil => exact splitOnChar_of_not_mem sep a (h a (by simp))
    | cons b t2 =>
      rw [urilib.joinChar_cons_ne sep a (b :: t2) (by simp),
        splitOnChar_append sep a _ (h a (by simp)),
        ih (by simp) fun p hp => h p (List.mem_cons_of_mem a hp)]

theorem cutChar_append (sep : Char) (a b : Str) (h : sep ∉ a) :
    cutChar sep (a ++ sep :: b) = (a, b) := by
  induction a with
  | nil => simp [cutChar]
  | cons c t ih =>
    have hc : c ≠ sep := fun hc => h (hc ▸ List.mem_cons_self c t)
    have ht : sep ∉ t := fun hm => h (List.mem_cons_of_mem c hm)
    show cutChar sep (c :: (t ++ sep :: b)) = (c :: t, b)
    unfold cutChar
    rw [if_neg hc, ih ht]

theorem cutChar_fst_not_mem (sep : Char) (s : Str) : sep ∉ (cutChar sep s).1 := by
  induction s with
  | nil => simp [cutChar]
  | cons c t ih =>
    by_cases hc : c = sep
    · simp [cutChar, hc]
    · intro hm
      rcases List.mem_cons.mp (by simpa [cutChar, hc] using hm) with h1 | h2
      · exact hc h1.symm
      · exact ih h2

theorem cutChar_decomp (sep : Char) (s : Str) :
    s = (cutChar sep s).1 ++ sep :: (cutChar sep s).2 ∨ cutChar sep s = (s, []) := by
  induction s with
  | nil => exact Or.inr rfl
  | cons c t ih =>
    by_cases hc : c = sep
    · subst hc; left; simp [cutChar]
    · have hstep : cutChar sep (c :: t) = (c :: (cutChar sep t).1, (cutChar sep t).2) := by
        simp [cutChar, hc]
      rcases ih with h1 | h2
      · left
        rw [hstep]
        exact congrArg (c :: ·) h1
      · right
        rw [hstep, h2]

theorem insertPair_perm (acc : List (Str × Str)) (p : Str × Str) :
    List.Perm (insertPair acc p) (p :: acc) := by
  induction acc with
  | nil => exact List.Perm.refl _
  | cons q t ih =>
    unfold insertPair
    split
    · exact (ih.cons q).trans (List.Perm.swap p q t)
    · exact List.Perm.refl _

theorem foldl_insertPair_perm (l acc : List (Str × Str)) :
    List.Perm (l.foldl insertPair acc) (acc ++ l) := by
  induction l generalizing acc with
  | nil => simp
  | cons p t ih =>
    have h1 : (p :: t).foldl insertPair acc = t.foldl insertPair (insertPair acc p) := rfl
    rw [h1]
    refine (ih _).trans ?_
    refine ((insertPair_perm acc p).append_right t).trans ?_
    exact List.perm_middle.symm

theorem sortByKey_perm (l : List (Str × Str)) : List.Perm (sortByKey l) l := by
  simpa using foldl_insertPair_perm l []

theorem plainStr_not_mem (s : Str) (h : plainStr s = true) (c : Char)
    (hc : plainChar c = false) : c ∉ s := by
  intro hm
  have hall := List.all_eq_true.mp h c hm
  rw [hc] at hall
  exact Bool.false_ne_true hall

theorem amp_not_mem_atom (p : Str × Str) (h1 : plainStr p.1 = true)
    (h2 : plainStr p.2 = true) : '&' ∉ p.1 ++ '=' :: p.2 := by
  intro hm
  rcases List.mem_append.mp hm with hma | hmb
  · exact plainStr_not_mem p.1 h1 '&' (by decide) hma
  · rcases List.mem_cons.mp hmb with he | hmc
    · exact absurd he (by decide)
    · exact plainStr_not_mem p.2 h2 '&' (by decide) hmc

theorem parseQuery_encodeValues (q : List (Str × Str))
    (h : ∀ p ∈ q, plainStr p.1 = true ∧ plainStr p.2 = true) :
    parseQuery (encodeValues q) = sortByKey q := by
  have hperm := sortByKey_perm q
  have hs : ∀ p ∈ sortByKey q, plainStr p.1 = true ∧ plainStr p.2 = true :=
    fun p hp => h p (hperm.mem_iff.mp hp)
  unfold parseQuery encodeValues
  cases hq : sortByKey q with
  | nil => simp [hq, urilib.joinChar, splitOnChar]
  | cons p0 t0 =>
    rw [← hq]
    have hpne : (sortByKey q).map (fun p => p.1 ++ '=' :: p.2) ≠ [] := by
      simp [hq]
    rw [splitOnChar_joinChar '&' _ hpne ?notmem]
    case notmem =>
      intro s hsm
      obtain ⟨p, hpm, rfl⟩ := List.mem_map.mp hsm
      exact amp_not_mem_atom p (hs p hpm).1 (hs p hpm).2
    rw [List.filter_eq_self.mpr ?nonnil]
    case nonnil =>
      intro a ha
      obtain ⟨p, hpm, rfl⟩ := List.mem_map.mp ha
      simp
    rw [List.map_map]
    refine (List.map_congr_left fun p hpm => ?_).trans (List.map_id _)
    show cutChar '=' (p.1 ++ '=' :: p.2) = p
    rw [cutChar_append '=' p.1 p.2 (plainStr_not_mem p.1 (hs p hpm).1 '=' (by decide))]

end gostd

namespace wedeploy

theorem headerGet_append_of_not_key (l1 l2 : Headers) (k : Str)
    (h : ∀ p ∈ l1, p.1 ≠ k) : headerGet (l1 ++ l2) k = headerGet l2 k := by
  induction l1 with
  | nil => rfl
  | cons p t ih =>
    obtain ⟨k0, vs⟩ := p
    have hp : k0 ≠ k := h (k0, vs) (by simp)
    show headerGet ((k0, vs) :: (t ++ l2)) k = headerGet l2 k
    rw [show headerGet ((k0, vs) :: (t ++ l2)) k = headerGet (t ++ l2) k by
      simp [headerGet, hp]]
    exact ih fun p hp2 => h p (List.mem_cons_of_mem _ hp2)

theorem headerGet_headerSet (h : Headers) (k v : Str) :
    headerGet (headerSet h k v) k = some v := by
  unfold headerSet
  rw [headerGet_append_of_not_key _ _ k fun p hp =>
    of_decide_eq_true (List.mem_filter.mp hp).2]
  simp [headerGet]

theorem headerGet_headerAdd_of_none (h : Headers) (k v : Str)
    (hn : headerGet h k = none) : headerGet (headerAdd h k v) k = some v := by
  induction h with
  | nil => simp [headerAdd, headerGet]
  | cons p t ih =>
    obtain ⟨k0, vs⟩ := p
    by_cases hk : k0 = k
    · subst hk
      have hh : vs.head? = none := by simpa [headerGet] using hn
      have hvs : vs = [] := by cases vs <;> simp_all
      simp [headerAdd, headerGet, hvs]
    · have hn2 : headerGet t k = none := by simpa [headerGet, hk] using hn
      simp [headerAdd, headerGet, hk, ih hn2]

/-- One fluent mutator call, for quantifying over call orders in the
body-precedence claims. -/
inductive Op where
  | form (k v : Str)
  | filter (f op v : Str)
  | aggregate (name field op : Str)
  | sort (f : Str) (dir : Option Str)
  | count
  | highlight (f : Str)
  | limit (n : Int)
  | offset (n : Int)
  | header (k v : Str)
  | body (r : Reader)
deriving DecidableEq

/-- Dispatch of one mutator call to the corresponding builder method. -/
def applyOp (w : WeDeploy) : Op → WeDeploy
  | .form k v => w.Form k v
  | .filter f op v => w.Filter f op v
  | .aggregate name field op => w.Aggregate name field op
  | .sort f d => w.Sort f d
  | .count => w.Count
  | .highlight f => w.Highlight f
  | .limit n => w.Limit n
  | .offset n => w.Offset n
  | .header k v => w.Header k v
  | .body r => w.Body r

/-- A chain of mutator calls applied left to right. -/
def applyOps (w : WeDeploy) (ops : List Op) : WeDeploy := ops.foldl applyOp w

/-- True for the `Form` mutator. -/
def Op.isForm : Op → Bool
  | .form _ _ => true
  | _ => false

/-- True for the mutators that lazily create the nested query builder. -/
def Op.isQueryMutator : Op → Bool
  | .filter _ _ _ => true
  | .aggregate _ _ _ => true
  | .sort _ _ => true
  | .count => true
  | .highlight _ => true
  | .limit _ => true
  | .offset _ => true
  | _ => false

theorem applyOp_query_preserve (w : WeDeploy) (op : Op)
    (h : w.Query ≠ none) : (applyOp w op).Query ≠ none := by
  cases op <;>
    simp_all [applyOp, WeDeploy.Form, WeDeploy.Filter, WeDeploy.Aggregate,
      WeDeploy.Sort, WeDeploy.Count, WeDeploy.Highlight, WeDeploy.Limit,
      WeDeploy.Offset, WeDeploy.Header, WeDeploy.Body]

theorem applyOp_query_of_mutator (w : WeDeploy) (op : Op)
    (h : op.isQueryMutator = true) : (applyOp w op).Query ≠ none := by
  cases op <;>
    simp_all [applyOp, Op.isQueryMutator, WeDeploy.Filter, WeDeploy.Aggregate,
      WeDeploy.Sort, WeDeploy.Count, WeDeploy.Highlight, WeDeploy.Limit,
      WeDeploy.Offset]

theorem applyOps_query_preserve (w : WeDeploy) (ops : List Op)
    (h : w.Query ≠ none) : (applyOps w ops).Query ≠ none := by
  induction ops generalizing w with
  | nil => exact h
  | cons o t ih => exact ih (applyOp w o) (applyOp_query_preserve w o h)

theorem applyOps_query_some (w : WeDeploy) (ops : List Op)
    (h : ∃ op ∈ ops, op.isQueryMutator = true) : (applyOps w ops).Query ≠ none := by
  induction ops generalizing w with
  | nil => obtain ⟨op, hm, _⟩ := h; exact absurd hm (by simp)
  | cons o t ih =>
    obtain ⟨op, hm, hq⟩ := h
    rcases List.mem_cons.mp hm with rfl | hmt
    · exact applyOps_query_preserve (applyOp w op) t (applyOp_query_of_mutator w op hq)
    · exact ih (applyOp w o) ⟨op, hmt, hq⟩

theorem applyOp_form_preserve (w : WeDeploy) (op : Op)
    (h : w.FormValues ≠ none) : (applyOp w op).FormValues ≠ none := by
  cases op <;>
    simp_all [applyOp, WeDeploy.Form, WeDeploy.Filter, WeDeploy.Aggregate,
      WeDeploy.Sort, WeDeploy.Count, WeDeploy.Highlight, WeDeploy.Limit,
      WeDeploy.Offset, WeDeploy.Header, WeDeploy.Body]

theorem applyOp_form_of_form (w : WeDeploy) (op : Op)
    (h : op.isForm = true) : (applyOp w op).FormValues ≠ none := by
  cases op <;> simp_all [applyOp, Op.isForm, WeDeploy.Form]

theorem applyOps_form_preserve (w : WeDeploy) (ops : List Op)
    (h : w.FormValues ≠ none) : (applyOps w ops).FormValues ≠ none := by
  induction ops generalizing w with
  | nil => exact h
  | cons o t ih => exact ih (applyOp w o) (applyOp_form_preserve w o h)

theorem applyOps_form_some (w : WeDeploy) (ops : List Op)
    (h : ∃ op ∈ ops, op.isForm = true) : (applyOps w ops).FormValues ≠ none := by
  induction ops generalizing w with
  | nil => obtain ⟨op, hm, _⟩ := h; exact absurd hm (by simp)
  | cons o t ih =>
    obtain ⟨op, hm, hq⟩ := h
    rcases List.mem_cons.mp hm with rfl | hmt
    · exact applyOps_form_preserve (applyOp w op) t (applyOp_form_of_form w op hq)
    · exact ih (applyOp w o) ⟨op, hmt, hq⟩

theorem setupActionCore_of_form_query (w : WeDeploy) (m : Str) (q : query.Builder)
    (fv : List (Str × Str)) (hq : w.Query = some q) (hfv : w.FormValues = some fv) :
    (setupActionCore w m).1.RequestBody
        = some ⟨.bytesReader, query.marshalQuery q, 0⟩ ∧
      headerGet (setupActionCore w m).1.Headers "Content-Type".toList
        = some "application/x-www-form-urlencoded".toList := by
  unfold setupActionCore
  rw [hfv]
  simp only [hq]
  split <;> exact ⟨rfl, headerGet_headerSet _ _ _⟩

end wedeploy

/-- Claim C9: `ResolvePath` trims at most one leading and at most one
trailing slash from each segment before the emptiness check — the
segment `"//t//"` contributes `"/t/"` (inner edge slashes survive into
the joined result), while the segments `""`, `"/"` and `"//"` are
dropped entirely. -/
theorem C9_trims_at_most_one_slash (t : Str) :
    urilib.ResolvePath [['x'], '/' :: '/' :: t ++ ['/', '/'], ['y']]
        = 'x' :: '/' :: '/' :: t ++ ['/', '/', 'y'] ∧
      urilib.trimSuffixSlash (urilib.trimPrefixSlash ('/' :: '/' :: t ++ ['/', '/']))
        = '/' :: t ++ ['/'] ∧
      urilib.ResolvePath [[]] = [] ∧ urilib.ResolvePath [['/']] = [] ∧
      urilib.ResolvePath [['/', '/']] = [] := by
  have hmid : urilib.trimSuffixSlash (urilib.trimPrefixSlash ('/' :: '/' :: t ++ ['/', '/']))
      = '/' :: t ++ ['/'] := by
    rw [show urilib.trimPrefixSlash ('/' :: '/' :: t ++ ['/', '/'])
        = '/' :: t ++ ['/', '/'] from by simp [urilib.trimPrefixSlash]]
    unfold urilib.trimSuffixSlash
    rw [show ('/' :: t ++ ['/', '/'] : Str).reverse = '/' :: '/' :: (t.reverse ++ ['/']) from by
      simp]
    rw [show urilib.trimPrefixSlash ('/' :: '/' :: (t.reverse ++ ['/']))
        = '/' :: (t.reverse ++ ['/']) from by simp [urilib.trimPrefixSlash]]
    simp
  refine ⟨?_, hmid, by decide, by decide, by decide⟩
  rw [urilib.resolvePath_eq_trimOne]
  simp only [List.map_cons, List.map_nil]
  rw [show urilib.trimOne ['x'] = ['x'] from by decide,
    show urilib.trimOne ['y'] = ['y'] from by decide,
    show urilib.trimOne ('/' :: '/' :: t ++ ['/', '/']) = '/' :: t ++ ['/'] from hmid]
  rw [List.filter_eq_self.mpr ?nonempty]
  case nonempty =>
    intro a ha
    rcases List.mem_cons.mp ha with rfl | ha2
    · decide
    rcases List.mem_cons.mp ha2 with rfl | ha3
    · exact decide_eq_true (List.cons_ne_nil _ _)
    rcases List.mem_cons.mp ha3 with rfl | ha4
    · decide
    · exact absurd ha4 (by simp)
  show ['x'] ++ '/' :: (('/' :: t ++ ['/']) ++ '/' :: ['y']) = _
  simp

/-- Claim C4 (counterexample): on base `"http://x"` and the single
segment `"///a"` the construction yields `"http://x//a"`, not the
`"http://x/a"` that trimming each segment of its leading/trailing
slashes and joining would give — only one slash is trimmed per side per
resolve pass. -/
theorem C4_counterexample :
    (wedeploy.URL "http://x".toList ["///a".toList]).URL = "http://x//a".toList ∧
      urilib.specJoinedURL "http://x".toList ["///a".toList] = "http://x/a".toList ∧
      (wedeploy.URL "http://x".toList ["///a".toList]).URL
        ≠ urilib.specJoinedURL "http://x".toList ["///a".toList] := by
  refine ⟨by decide, by decide, by decide⟩

/-- Claim C4 (amended): for every non-empty base without leading or
trailing slash and segments carrying at most one leading and one
trailing slash, construction produces the segment-joined,
slash-normalized concatenation of the claim — each segment trimmed of
its edge slashes, empty segments dropped, the rest joined with `/`
after the base; segments with doubled edge slashes are instead trimmed
only once per resolve pass (see the counterexample and claim C9). -/
theorem C4_slash_normalized_join (base : Str) (paths : List Str)
    (hbne : base ≠ []) (hbedge : urilib.noEdgeSlash base = true)
    (hp : ∀ p ∈ paths, urilib.atMostOneEdgeSlash p) :
    (wedeploy.URL base paths).URL = urilib.specJoinedURL base paths := by
  have hmap : paths.map urilib.trimAllSlash = paths.map urilib.trimOne :=
    List.map_congr_left fun p hpm => (urilib.trimOne_of_atMostOne p (hp p hpm)).1.symm
  have hcsmem : ∀ s ∈ (paths.map urilib.trimOne).filter (fun p => p ≠ []),
      s ≠ [] ∧ urilib.noEdgeSlash s = true := by
    intro s hs
    obtain ⟨hsm, hsne⟩ := List.mem_filter.mp hs
    obtain ⟨p, hpm, rfl⟩ := List.mem_map.mp hsm
    exact ⟨of_decide_eq_true hsne, (urilib.trimOne_of_atMostOne p (hp p hpm)).2⟩
  have h1 : urilib.trimOne base = base := (urilib.trimOne_shapes base hbedge).1
  unfold urilib.specJoinedURL
  rw [hmap]
  show urilib.ResolvePath [base, urilib.ResolvePath paths] = _
  rw [urilib.resolvePath_eq_trimOne paths, urilib.resolvePath_eq_trimOne]
  by_cases hcse : (paths.map urilib.trimOne).filter (fun p => p ≠ []) = []
  · rw [hcse]
    show urilib.joinChar '/'
        (([base, urilib.joinChar '/' []].map urilib.trimOne).filter fun p => p ≠ [])
      = urilib.joinChar '/' [base]
    rw [show urilib.joinChar '/' ([] : List Str) = [] from rfl]
    simp only [List.map_cons, List.map_nil, h1]
    rw [show urilib.trimOne ([] : Str) = [] from rfl]
    rw [show List.filter (fun p => decide (p ≠ [])) [base, ([] : Str)] = [base] from by
      simp [hbne]]
  · obtain ⟨hjne, hjedge⟩ :=
      urilib.joinChar_clean ((paths.map urilib.trimOne).filter fun p => p ≠ []) hcse hcsmem
    have h2 : urilib.trimOne (urilib.joinChar '/'
        ((paths.map urilib.trimOne).filter fun p => p ≠ [])) =
        urilib.joinChar '/' ((paths.map urilib.trimOne).filter fun p => p ≠ []) :=
      (urilib.trimOne_shapes _ hjedge).1
    simp only [List.map_cons, List.map_nil, h1, h2]
    rw [List.filter_eq_self.mpr ?keep]
    case keep =>
      intro a ha
      rcases List.mem_cons.mp ha with rfl | ha2
      · exact decide_eq_true hbne
      rcases List.mem_cons.mp ha2 with rfl | ha3
      · exact decide_eq_true hjne
      · exact absurd ha3 (by simp)
    rw [show urilib.joinChar '/'
        [base, urilib.joinChar '/' ((paths.map urilib.trimOne).filter fun p => p ≠ [])]
        = base ++ '/' :: urilib.joinChar '/'
            ((paths.map urilib.trimOne).filter fun p => p ≠ []) from rfl]
    rw [urilib.joinChar_cons_ne '/' base _ hcse]

/-- Claim C4 (witness): the claim example — `Path("a","/b/","c")` on
base `"http://x/y"` yields `"http://x/y/a/b/c"`. -/
theorem C4_witness :
    (wedeploy.URL "http://x/y".toList ["a".toList, "/b/".toList, "c".toList]).URL
        = urilib.specJoinedURL "http://x/y".toList ["a".toList, "/b/".toList, "c".toList] ∧
      urilib.specJoinedURL "http://x/y".toList ["a".toList, "/b/".toList, "c".toList]
        = "http://x/y/a/b/c".toList := by
  constructor
  · refine C4_slash_normalized_join _ _ (by decide) (by decide) ?_
    intro p hp
    rcases List.mem_cons.mp hp with rfl | hp2
    · exact ⟨"a".toList, by decide, Or.inl rfl⟩
    rcases List.mem_cons.mp hp2 with rfl | hp3
    · exact ⟨"b".toList, by decide, Or.inr (Or.inr (Or.inr rfl))⟩
    rcases List.mem_cons.mp hp3 with rfl | hp4
    · exact ⟨"c".toList, by decide, Or.inl rfl⟩
    · exact absurd hp4 (by simp)
  · decide

/-- Claim C1 (counterexample): on a builder where both `Form` and a
query mutator were called, the resolved body is the query JSON, not the
form encoding — `setupAction` assigns the form body first and the query
body second, in two independent conditionals — while the Content-Type
does become the form encoding's. -/
theorem C1_counterexample :
    ((wedeploy.setupActionCore
          (((wedeploy.URL "http://example.com/url".toList []).Form
              "title".toList "foo".toList).Limit 0)
          "POST".toList).1.RequestBody.map wedeploy.Reader.data)
        = some (query.marshalQuery (query.Builder.new.Limit 0)) ∧
      ((wedeploy.setupActionCore
          (((wedeploy.URL "http://example.com/url".toList []).Form
              "title".toList "foo".toList).Limit 0)
          "POST".toList).1.RequestBody.map wedeploy.Reader.data)
        ≠ some (gostd.encodeValues [("title".toList, "foo".toList)]) ∧
      wedeploy.headerGet
          (wedeploy.setupActionCore
            (((wedeploy.URL "http://example.com/url".toList []).Form
                "title".toList "foo".toList).Limit 0)
            "POST".toList).1.Headers "Content-Type".toList
        = some "application/x-www-form-urlencoded".toList := by
  refine ⟨by decide, by decide, by decide⟩

/-- Claim C1 (amended): the resolved body follows the precedence query
over form over raw body — non-empty form values set the body and the
form Content-Type, but a non-nil structured query then overwrites the
body with its JSON serialization; hence on every builder where both
`Form` and a query mutator were called, in any order, the outgoing body
is the query JSON while the outgoing Content-Type is the form
encoding's. -/
theorem C1_query_overwrites_form_body (uri : Str) (paths : List Str)
    (ops : List wedeploy.Op) (m : Str)
    (hf : ∃ op ∈ ops, op.isForm = true)
    (hq : ∃ op ∈ ops, op.isQueryMutator = true) :
    ∃ q : query.Builder,
      (wedeploy.applyOps (wedeploy.URL uri paths) ops).Query = some q ∧
      (wedeploy.setupActionCore (wedeploy.applyOps (wedeploy.URL uri paths) ops)
          m).1.RequestBody = some ⟨.bytesReader, query.marshalQuery q, 0⟩ ∧
      wedeploy.headerGet
          (wedeploy.setupActionCore (wedeploy.applyOps (wedeploy.URL uri paths) ops)
            m).1.Headers "Content-Type".toList
        = some "application/x-www-form-urlencoded".toList := by
  have hqs := wedeploy.applyOps_query_some (wedeploy.URL uri paths) ops hq
  have hfs := wedeploy.applyOps_form_some (wedeploy.URL uri paths) ops hf
  obtain ⟨q, hq2⟩ := Option.ne_none_iff_exists.mp hqs
  obtain ⟨fv, hfv2⟩ := Option.ne_none_iff_exists.mp hfs
  obtain ⟨hbody, hct⟩ := wedeploy.setupActionCore_of_form_query
    (wedeploy.applyOps (wedeploy.URL uri paths) ops) m q fv hq2.symm hfv2.symm
  exact ⟨q, hq2.symm, hbody, hct⟩

/-- Claim C1 (witness): the amended claim at the concrete chain
`URL(...).Form("title","foo").Limit(0)` in both call orders. -/
theorem C1_witness :
    (∃ q : query.Builder,
      (wedeploy.applyOps (wedeploy.URL "http://example.com/url".toList [])
          [wedeploy.Op.form "title".toList "foo".toList, wedeploy.Op.limit 0]).Query
        = some q ∧
      (wedeploy.setupActionCore
          (wedeploy.applyOps (wedeploy.URL "http://example.com/url".toList [])
            [wedeploy.Op.form "title".toList "foo".toList, wedeploy.Op.limit 0])
          "POST".toList).1.RequestBody = some ⟨.bytesReader, query.marshalQuery q, 0⟩ ∧
      wedeploy.headerGet
          (wedeploy.setupActionCore
            (wedeploy.applyOps (wedeploy.URL "http://example.com/url".toList [])
              [wedeploy.Op.form "title".toList "foo".toList, wedeploy.Op.limit 0])
            "POST".toList).1.Headers "Content-Type".toList
        = some "application/x-www-form-urlencoded".toList) ∧
    (∃ q : query.Builder,
      (wedeploy.applyOps (wedeploy.URL "http://example.com/url".toList [])
          [wedeploy.Op.limit 0, wedeploy.Op.form "title".toList "foo".toList]).Query
        = some q ∧
      (wedeploy.setupActionCore
          (wedeploy.applyOps (wedeploy.URL "http://example.com/url".toList [])
            [wedeploy.Op.limit 0, wedeploy.Op.form "title".toList "foo".toList])
          "POST".toList).1.RequestBody = some ⟨.bytesReader, query.marshalQuery q, 0⟩ ∧
      wedeploy.headerGet
          (wedeploy.setupActionCore
            (wedeploy.applyOps (wedeploy.URL "http://example.com/url".toList [])
              [wedeploy.Op.limit 0, wedeploy.Op.form "title".toList "foo".toList])
            "POST".toList).1.Headers "Content-Type".toList
        = some "application/x-www-form-urlencoded".toList) := by
  constructor
  · exact C1_query_overwrites_form_body _ _ _ _
      ⟨wedeploy.Op.form "title".toList "foo".toList, by decide⟩
      ⟨wedeploy.Op.limit 0, by decide⟩
  · exact C1_query_overwrites_form_body _ _ _ _
      ⟨wedeploy.Op.form "title".toList "foo".toList, by decide⟩
      ⟨wedeploy.Op.limit 0, by decide⟩

namespace wedeploy

theorem actionV1_outcome (w : WeDeploy) (m : Str) (t : Outcome) (pr : Str × Str)
    (hp : gostd.parseURL w.URL = some pr) :
    (actionV1 w m t).2.1 = (match t with
        | .fail e => some (.transport e)
        | .ok resp => if 400 ≤ resp.StatusCode then some ErrUnexpectedResponse else none) ∧
      (actionV1 w m t).1.Response
        = (match t with | .ok resp => some resp | .fail _ => none) := by
  obtain ⟨url, hd, qr, fv, rb, rq, rs, tmo, ca⟩ := w
  unfold actionV1 setupActionV1 setupActionCore
  cases fv <;> cases qr <;>
    (cases tmo with
      | none =>
        simp only [hp]
        cases t <;> constructor <;>
          (dsimp only
           all_goals (first | rfl | (split <;> rfl)))
      | some d =>
        simp only [hp]
        rcases eq_or_ne d 0 with hd | hd
        · rw [if_neg fun hcon => hcon hd]
          cases t <;> constructor <;>
            (dsimp only
             all_goals (first | rfl | (split <;> rfl)))
        · rw [if_pos hd]
          cases t <;> constructor <;>
            (dsimp only
             all_goals (first | rfl | (split <;> rfl))))

theorem actionLaunchpad_outcome (w : WeDeploy) (m : Str) (t : Outcome) (pr : Str × Str)
    (hp : gostd.parseURL w.URL = some pr) :
    (actionLaunchpad w m t).2 = (match t with
        | .fail e => some (.transport e)
        | .ok resp => if 400 ≤ resp.StatusCode then some ErrUnexpectedResponse else none) ∧
      (actionLaunchpad w m t).1.Response
        = (match t with | .ok resp => some resp | .fail _ => none) := by
  obtain ⟨url, hd, qr, fv, rb, rq, rs, tmo, ca⟩ := w
  unfold actionLaunchpad setupActionCore
  cases fv <;> cases qr <;> simp only [hp] <;> cases t <;> constructor <;>
    (dsimp only
     all_goals (first | rfl | (split <;> rfl)))

theorem actionV2_outcome (w : WeDeploy) (m : Str) (t : Outcome) (pr : Str × Str)
    (hp : gostd.parseURL w.URL = some pr) :
    (actionV2 w m t).2.1 = (match t with
        | .fail e => some (.transport e)
        | .ok resp => if 400 ≤ resp.StatusCode then some ErrUnexpectedResponse else none) ∧
      (actionV2 w m t).1.Response
        = (match t with | .ok resp => some resp | .fail _ => none) := by
  obtain ⟨url, hd, qr, fv, rb, rq, rs, tmo, ca⟩ := w
  unfold actionV2 setupActionV2 setupActionCore
  cases fv <;> cases qr <;>
    (cases tmo with
      | none =>
        simp only [hp]
        cases t <;> constructor <;>
          (dsimp only
           all_goals (first | rfl | (split <;> rfl)))
      | some d =>
        simp only [hp]
        rcases eq_or_ne d 0 with hd | hd
        · rw [if_neg fun hcon => hcon hd]
          cases t <;> constructor <;>
            (dsimp only
             all_goals (first | rfl | (split <;> rfl)))
        · rw [if_pos hd]
          cases t <;> constructor <;>
            (dsimp only
             all_goals (first | rfl | (split <;> rfl))))

end wedeploy

/-- Claim C2: for a terminal action whose transport call returns a
response, a status ≥ 400 yields the generic `ErrUnexpectedResponse`
sentinel with the builder's Response still populated with that
response; a status < 400 yields no error; a transport-level error is
returned as-is — in the wedeploy action and in the launchpad action. -/
theorem C2_response_classification (w : wedeploy.WeDeploy) (m : Str)
    (resp : wedeploy.Response) (e : Str) (pr : Str × Str)
    (hp : gostd.parseURL w.URL = some pr) :
    (400 ≤ resp.StatusCode →
        (wedeploy.actionV1 w m (.ok resp)).2.1 = some wedeploy.ErrUnexpectedResponse ∧
        (wedeploy.actionV1 w m (.ok resp)).1.Response = some resp ∧
        (wedeploy.actionLaunchpad w m (.ok resp)).2 = some wedeploy.ErrUnexpectedResponse ∧
        (wedeploy.actionLaunchpad w m (.ok resp)).1.Response = some resp) ∧
      (resp.StatusCode < 400 →
        (wedeploy.actionV1 w m (.ok resp)).2.1 = none ∧
        (wedeploy.actionV1 w m (.ok resp)).1.Response = some resp ∧
        (wedeploy.actionLaunchpad w m (.ok resp)).2 = none ∧
        (wedeploy.actionLaunchpad w m (.ok resp)).1.Response = some resp) ∧
      (wedeploy.actionV1 w m (.fail e)).2.1 = some (wedeploy.Err.transport e) ∧
      (wedeploy.actionLaunchpad w m (.fail e)).2 = some (wedeploy.Err.transport e) := by
  obtain ⟨h1ok, h1resp⟩ := wedeploy.actionV1_outcome w m (.ok resp) pr hp
  obtain ⟨hLok, hLresp⟩ := wedeploy.actionLaunchpad_outcome w m (.ok resp) pr hp
  obtain ⟨h1f, _⟩ := wedeploy.actionV1_outcome w m (.fail e) pr hp
  obtain ⟨hLf, _⟩ := wedeploy.actionLaunchpad_outcome w m (.fail e) pr hp
  refine ⟨fun hsc => ?_, fun hsc => ?_, ?_, ?_⟩
  · exact ⟨by rw [h1ok]; simp [hsc], by rw [h1resp],
      by rw [hLok]; simp [hsc], by rw [hLresp]⟩
  · have hns : ¬(400 ≤ resp.StatusCode) := Nat.not_le.mpr hsc
    exact ⟨by rw [h1ok]; simp [hns], by rw [h1resp],
      by rw [hLok]; simp [hns], by rw [hLresp]⟩
  · rw [h1f]
  · rw [hLf]

/-- Claim C2 (witness): a 404 response on a concrete request yields the
sentinel error while the response, body included, stays accessible. -/
theorem C2_witness :
    (wedeploy.actionV1 (wedeploy.URL "http://example.com/url".toList []) "GET".toList
        (.ok ⟨404, [], "oops".toList⟩)).2.1 = some wedeploy.ErrUnexpectedResponse ∧
      (wedeploy.actionV1 (wedeploy.URL "http://example.com/url".toList []) "GET".toList
        (.ok ⟨404, [], "oops".toList⟩)).1.Response = some ⟨404, [], "oops".toList⟩ := by
  have h := (C2_response_classification
    (wedeploy.URL "http://example.com/url".toList []) "GET".toList
    ⟨404, [], "oops".toList⟩ [] ("http://example.com/url".toList, [])
    (by decide)).1 (by decide)
  exact ⟨h.1, h.2.1⟩

/-- Claim C3 (counterexample): in the timer variant of wedeploy.go a
non-zero timeout arms a `time.AfterFunc` timer, but no exit path of the
terminal action ever disarms it — the cancel function always fires
later (the code comments that this is deliberate) — contradicting the
claim that the token is disarmed on every exit path. -/
theorem C3_counterexample :
    wedeploy.Event.armTimer 1 ∈ (wedeploy.actionV1
        ((wedeploy.URL "http://example.com/url".toList []).Timeout 1)
        "GET".toList (.ok ⟨200, [], []⟩)).2.2 ∧
      wedeploy.Event.disarm ∉ (wedeploy.actionV1
        ((wedeploy.URL "http://example.com/url".toList []).Timeout 1)
        "GET".toList (.ok ⟨200, [], []⟩)).2.2 := by
  refine ⟨by decide, by decide⟩

/-- Claim C3 (amended): in the context-based variant, whenever a
cancellation token is armed for the request, `cancelRemainingTimeout`
disarms it on the exit path taken — after a setup failure as well as
after the transport call returns, on success and on transport error. -/
theorem C3_context_variant_disarms (w : wedeploy.WeDeploy) (m : Str)
    (t : wedeploy.Outcome) (d : Nat)
    (h : wedeploy.Event.armTimer d ∈ (wedeploy.actionV2 w m t).2.2) :
    wedeploy.Event.disarm ∈ (wedeploy.actionV2 w m t).2.2 := by
  obtain ⟨url, hd, qr, fv, rb, rq, rs, tmo, ca⟩ := w
  unfold wedeploy.actionV2 wedeploy.setupActionV2 wedeploy.setupActionCore
    wedeploy.cancelRemainingTimeout at h ⊢
  cases fv <;> cases qr <;> cases hpu : gostd.parseURL url <;>
    simp only [hpu] at h ⊢ <;>
    (cases tmo with
      | none => cases ca <;> simp_all
      | some d0 =>
        rcases eq_or_ne d0 0 with hd0 | hd0
        · try rw [if_neg (not_not_intro hd0)] at h ⊢
          cases ca <;> simp_all
        · try rw [if_pos hd0] at h ⊢
          cases ca <;> simp_all)

/-- Claim C3 (witness): the amended claim at a concrete run — a request
with timeout 5 arms the token and the trace also disarms it. -/
theorem C3_witness :
    wedeploy.Event.armTimer 5 ∈ (wedeploy.actionV2
        ((wedeploy.URL "http://example.com/url".toList []).Timeout 5)
        "GET".toList (.ok ⟨200, [], []⟩)).2.2 ∧
      wedeploy.Event.disarm ∈ (wedeploy.actionV2
        ((wedeploy.URL "http://example.com/url".toList []).Timeout 5)
        "GET".toList (.ok ⟨200, [], []⟩)).2.2 :=
  ⟨by decide, C3_context_variant_disarms _ _ _ 5 (by decide)⟩

/-- Claim C6: on a builder whose url does not parse, Param is a no-op
returning the very same builder, Params returns nothing, and a terminal
verb returns the URL parse error with the response untouched and no
transport call in the trace. -/
theorem C6_invalid_url_silent_failure (w : wedeploy.WeDeploy) (k v m : Str)
    (t : wedeploy.Outcome) (hp : gostd.parseURL w.URL = none) :
    w.Param k v = w ∧ w.Params = none ∧
      (wedeploy.actionV1 w m t).2.1 = some wedeploy.Err.urlParse ∧
      (wedeploy.actionV1 w m t).1.Response = w.Response ∧
      (∀ s, wedeploy.Event.transportCall s ∉ (wedeploy.actionV1 w m t).2.2) := by
  obtain ⟨url, hd, qr, fv, rb, rq, rs, tmo, ca⟩ := w
  dsimp only at hp
  refine ⟨?_, ?_, ?_, ?_, ?_⟩
  · simp [wedeploy.WeDeploy.Param, wedeploy.ParamStr, hp]
  · simp [wedeploy.WeDeploy.Params, hp]
  · unfold wedeploy.actionV1 wedeploy.setupActionV1 wedeploy.setupActionCore
    cases fv <;> cases qr <;> simp [hp]
  · unfold wedeploy.actionV1 wedeploy.setupActionV1 wedeploy.setupActionCore
    cases fv <;> cases qr <;> simp [hp]
  · intro s
    unfold wedeploy.actionV1 wedeploy.setupActionV1 wedeploy.setupActionCore
    cases fv <;> cases qr <;> simp [hp]

/-- Claim C6 (witness): the repository's own failing input
`":wrong-schema"` — Param leaves the builder untouched, Params is nil
and Get surfaces the parse error without a transport call. -/
theorem C6_witness :
    (wedeploy.URL ":wrong-schema".toList []).URL = ":wrong-schema".toList ∧
      ((wedeploy.URL ":wrong-schema".toList []).Param "foo".toList "bar".toList
          = wedeploy.URL ":wrong-schema".toList [] ∧
        (wedeploy.URL ":wrong-schema".toList []).Params = none ∧
        (wedeploy.actionV1 (wedeploy.URL ":wrong-schema".toList []) "GET".toList
            (.ok ⟨200, [], []⟩)).2.1 = some wedeploy.Err.urlParse ∧
        (wedeploy.actionV1 (wedeploy.URL ":wrong-schema".toList []) "GET".toList
            (.ok ⟨200, [], []⟩)).1.Response = (wedeploy.URL ":wrong-schema".toList []).Response ∧
        (∀ s, wedeploy.Event.transportCall s ∉ (wedeploy.actionV1
            (wedeploy.URL ":wrong-schema".toList []) "GET".toList
            (.ok ⟨200, [], []⟩)).2.2)) :=
  ⟨by decide, C6_invalid_url_silent_failure _ _ _ _ _ (by decide)⟩

/-- Claim C7: on a builder with no Authorization header yet, the
one-argument Auth sets `Authorization: Bearer <token>` and the
two-argument Auth sets `Authorization: Basic <base64(user:pass)>` with
standard base64. -/
theorem C7_auth_headers (w : wedeploy.WeDeploy) (tok u p : Str)
    (h : wedeploy.headerGet w.Headers "Authorization".toList = none) :
    wedeploy.headerGet (w.Auth1 tok).Headers "Authorization".toList
        = some ("Bearer ".toList ++ tok) ∧
      wedeploy.headerGet (w.Auth2 u p).Headers "Authorization".toList
        = some ("Basic ".toList ++ gostd.base64Encode (gostd.strBytes (u ++ ':' :: p))) :=
  ⟨wedeploy.headerGet_headerAdd_of_none _ _ _ h,
    wedeploy.headerGet_headerAdd_of_none _ _ _ h⟩

/-- Claim C7 (witness): the repository's test vectors — `Auth("myToken")`
gives `Bearer myToken` and `Auth("admin","safe")` gives
`Basic YWRtaW46c2FmZQ==`. -/
theorem C7_witness :
    wedeploy.headerGet (wedeploy.URL "http://localhost/".toList []).Headers
        "Authorization".toList = none ∧
      wedeploy.headerGet ((wedeploy.URL "http://localhost/".toList []).Auth1
          "myToken".toList).Headers "Authorization".toList
        = some "Bearer myToken".toList ∧
      wedeploy.headerGet ((wedeploy.URL "http://localhost/".toList []).Auth2
          "admin".toList "safe".toList).Headers "Authorization".toList
        = some "Basic YWRtaW46c2FmZQ==".toList := by
  refine ⟨by decide, ?_, ?_⟩
  · exact ((C7_auth_headers (wedeploy.URL "http://localhost/".toList [])
      "myToken".toList "admin".toList "safe".toList (by decide)).1).trans (by decide)
  · exact ((C7_auth_headers (wedeploy.URL "http://localhost/".toList [])
      "myToken".toList "admin".toList "safe".toList (by decide)).2).trans (by decide)

namespace query

theorem not_mem_single_keyed (k k2 : Str) (jv jv2 : JVal) (hne : k ≠ k2) :
    (k, jv) ∉ ([(k2, jv2)] : List (Str × JVal)) := by
  intro hm
  exact hne (congrArg Prod.fst (List.mem_singleton.mp hm))

theorem limit_not_mem_of_none (q : Builder) (hl : q.limit = none) (jv : JVal) :
    ("limit".toList, jv) ∉ queryFields q := by
  intro hm
  obtain ⟨ty, fl, so, ag, hi, li, off⟩ := q
  dsimp only at hl
  subst hl
  unfold queryFields at hm
  simp only [List.mem_append] at hm
  rcases hm with ((((((h | h) | h) | h) | h) | h) | h)
  · cases ty with
    | none => simp at h
    | some tv => exact not_mem_single_keyed _ _ _ _ (by decide) h
  · split at h
    · simp at h
    · exact not_mem_single_keyed _ _ _ _ (by decide) h
  · split at h
    · simp at h
    · exact not_mem_single_keyed _ _ _ _ (by decide) h
  · split at h
    · simp at h
    · exact not_mem_single_keyed _ _ _ _ (by decide) h
  · split at h
    · simp at h
    · exact not_mem_single_keyed _ _ _ _ (by decide) h
  · simp at h
  · cases off with
    | none => simp at h
    | some n => exact not_mem_single_keyed _ _ _ _ (by decide) h

theorem offset_not_mem_of_none (q : Builder) (ho : q.offset = none) (jv : JVal) :
    ("offset".toList, jv) ∉ queryFields q := by
  intro hm
  obtain ⟨ty, fl, so, ag, hi, li, off⟩ := q
  dsimp only at ho
  subst ho
  unfold queryFields at hm
  simp only [List.mem_append] at hm
  rcases hm with ((((((h | h) | h) | h) | h) | h) | h)
  · cases ty with
    | none => simp at h
    | some tv => exact not_mem_single_keyed _ _ _ _ (by decide) h
  · split at h
    · simp at h
    · exact not_mem_single_keyed _ _ _ _ (by decide) h
  · split at h
    · simp at h
    · exact not_mem_single_keyed _ _ _ _ (by decide) h
  · split at h
    · simp at h
    · exact not_mem_single_keyed _ _ _ _ (by decide) h
  · split at h
    · simp at h
    · exact not_mem_single_keyed _ _ _ _ (by decide) h
  · cases li with
    | none => simp at h
    | some n => exact not_mem_single_keyed _ _ _ _ (by decide) h
  · simp at h

theorem limit_mem_queryFields (q : Builder) (n : Int) :
    ("limit".toList, JVal.num n) ∈ queryFields (q.Limit n) := by
  obtain ⟨ty, fl, so, ag, hi, li, off⟩ := q
  unfold queryFields Builder.Limit
  simp [List.mem_append]

theorem offset_mem_queryFields (q : Builder) (n : Int) :
    ("offset".toList, JVal.num n) ∈ queryFields (q.Offset n) := by
  obtain ⟨ty, fl, so, ag, hi, li, off⟩ := q
  unfold queryFields Builder.Offset
  simp [List.mem_append]

end query

/-- Claim C8: after `Limit(0)` (resp. `Offset(0)`) the serialized query
holds the explicit pair `"limit": 0` (resp. `"offset": 0`); when the
mutator was never called the key is entirely absent — no pair with that
key, null included, appears among the serialized fields — so explicit
zero is distinguishable from never-set.  Stated for every starting
query and every n, 0 included. -/
theorem C8_limit_offset_explicit_zero (q : query.Builder) (n : Int)
    (hl : q.limit = none) (ho : q.offset = none) :
    ("limit".toList, query.JVal.num n) ∈ query.queryFields (q.Limit n) ∧
      ("offset".toList, query.JVal.num n) ∈ query.queryFields (q.Offset n) ∧
      (∀ jv, ("limit".toList, jv) ∉ query.queryFields q) ∧
      (∀ jv, ("offset".toList, jv) ∉ query.queryFields q) ∧
      ((wedeploy.URL "http://example.com/url".toList []).Limit n).Query
        = some (query.Builder.new.Limit n) :=
  ⟨query.limit_mem_queryFields q n, query.offset_mem_queryFields q n,
    query.limit_not_mem_of_none q hl, query.offset_not_mem_of_none q ho, rfl⟩

/-- Claim C8 (witness): at limit/offset 0 on a fresh query — `"limit":0`
and `"offset":0` are present once set, absent before. -/
theorem C8_witness :
    ("limit".toList, query.JVal.num 0) ∈ query.queryFields (query.Builder.new.Limit 0) ∧
      ("offset".toList, query.JVal.num 0) ∈ query.queryFields (query.Builder.new.Offset 0) ∧
      (∀ jv, ("limit".toList, jv) ∉ query.queryFields query.Builder.new) ∧
      (∀ jv, ("offset".toList, jv) ∉ query.queryFields query.Builder.new) ∧
      ((wedeploy.URL "http://example.com/url".toList []).Limit 0).Query
        = some (query.Builder.new.Limit 0) :=
  C8_limit_offset_explicit_zero query.Builder.new 0 (by decide) (by decide)

namespace wedeploy

theorem actionV1_buffer_run (w : WeDeploy) (m : Str) (t : Outcome) (bs : Str)
    (pos : Nat) (pr : Str × Str) (hf : w.FormValues = none) (hq : w.Query = none)
    (hb : w.RequestBody = some ⟨.bytesBuffer, bs, pos⟩)
    (hp : gostd.parseURL w.URL = some pr) :
    (actionV1 w m t).1.RequestBody = some ⟨.bytesBuffer, bs.drop pos, 0⟩ ∧
      Event.transportCall (bs.drop pos) ∈ (actionV1 w m t).2.2 ∧
      (actionV1 w m t).1.FormValues = none ∧ (actionV1 w m t).1.Query = none ∧
      (actionV1 w m t).1.URL = w.URL := by
  obtain ⟨url, hd, qr, fv, rb, rq, rs, tmo, ca⟩ := w
  dsimp only at hf hq hb hp ⊢
  subst hf hq hb
  unfold actionV1 setupActionV1 setupActionCore
  (cases tmo with
    | none =>
      simp only [hp]
      cases t <;>
        simp [sentBody, consumeBody, Reader.remaining]
    | some d =>
      simp only [hp]
      rcases eq_or_ne d 0 with hd0 | hd0
      · rw [if_neg (not_not_intro hd0)]
        cases t <;>
          simp [sentBody, consumeBody, Reader.remaining]
      · rw [if_pos hd0]
        cases t <;>
          simp [sentBody, consumeBody, Reader.remaining])

theorem actionV1_nonbuffer_run (w : WeDeploy) (m : Str) (t : Outcome)
    (kind : ReaderKind) (bs : Str) (pos : Nat) (pr : Str × Str)
    (hk : kind ≠ ReaderKind.bytesBuffer)
    (hf : w.FormValues = none) (hq : w.Query = none)
    (hb : w.RequestBody = some ⟨kind, bs, pos⟩)
    (hp : gostd.parseURL w.URL = some pr) :
    (actionV1 w m t).1.RequestBody = some ⟨kind, bs, bs.length⟩ := by
  obtain ⟨url, hd, qr, fv, rb, rq, rs, tmo, ca⟩ := w
  dsimp only at hf hq hb hp ⊢
  subst hf hq hb
  unfold actionV1 setupActionV1 setupActionCore
  (cases tmo with
    | none =>
      simp only [hp]
      cases t <;>
        simp [sentBody, consumeBody, Reader.remaining, hk]
    | some d =>
      simp only [hp]
      rcases eq_or_ne d 0 with hd0 | hd0
      · rw [if_neg (not_not_intro hd0)]
        cases t <;>
          simp [sentBody, consumeBody, Reader.remaining, hk]
      · rw [if_pos hd0]
        cases t <;>
          simp [sentBody, consumeBody, Reader.remaining, hk])

end wedeploy

/-- Claim C10: when the resolved body at a terminal action is a
`*bytes.Buffer`, the action snapshots its unread contents before the
transport call and afterwards replaces RequestBody with a fresh buffer
holding the same bytes, so re-invoking a terminal verb sends an
identical body; for any other reader type the body is consumed by the
transport call and RequestBody is not restored. -/
theorem C10_buffer_snapshot_restore :
    (∀ (w : wedeploy.WeDeploy) (m : Str) (t t2 : wedeploy.Outcome) (bs : Str)
        (pos : Nat) (pr : Str × Str),
        w.FormValues = none → w.Query = none →
        w.RequestBody = some ⟨.bytesBuffer, bs, pos⟩ →
        gostd.parseURL w.URL = some pr →
        (wedeploy.actionV1 w m t).1.RequestBody
            = some ⟨.bytesBuffer, bs.drop pos, 0⟩ ∧
          wedeploy.Event.transportCall (bs.drop pos) ∈ (wedeploy.actionV1 w m t).2.2 ∧
          wedeploy.Event.transportCall (bs.drop pos)
            ∈ (wedeploy.actionV1 (wedeploy.actionV1 w m t).1 m t2).2.2) ∧
      (∀ (w : wedeploy.WeDeploy) (m : Str) (t : wedeploy.Outcome)
          (kind : wedeploy.ReaderKind) (bs : Str) (pos : Nat) (pr : Str × Str),
        kind ≠ wedeploy.ReaderKind.bytesBuffer →
        w.FormValues = none → w.Query = none →
        w.RequestBody = some ⟨kind, bs, pos⟩ →
        gostd.parseURL w.URL = some pr →
        (wedeploy.actionV1 w m t).1.RequestBody = some ⟨kind, bs, bs.length⟩) := by
  constructor
  · intro w m t t2 bs pos pr hf hq hb hp
    obtain ⟨h1, h2, hf2, hq2, hu2⟩ := wedeploy.actionV1_buffer_run w m t bs pos pr hf hq hb hp
    refine ⟨h1, h2, ?_⟩
    have h2nd := wedeploy.actionV1_buffer_run (wedeploy.actionV1 w m t).1 m t2
      (bs.drop pos) 0 pr hf2 hq2 h1 (by rw [hu2]; exact hp)
    simpa using h2nd.2.1
  · intro w m t kind bs pos pr hk hf hq hb hp
    exact wedeploy.actionV1_nonbuffer_run w m t kind bs pos pr hk hf hq hb hp

/-- Claim C10 (witness): a concrete buffer body is restored and resent
identically on a second invocation, while a strings.Reader body stays
consumed. -/
theorem C10_witness :
    ((wedeploy.actionV1
          ((wedeploy.URL "http://example.com/url".toList []).Body
            ⟨.bytesBuffer, "foo".toList, 0⟩)
          "POST".toList (.ok ⟨200, [], []⟩)).1.RequestBody
        = some ⟨.bytesBuffer, "foo".toList, 0⟩ ∧
      wedeploy.Event.transportCall "foo".toList ∈ (wedeploy.actionV1
          ((wedeploy.URL "http://example.com/url".toList []).Body
            ⟨.bytesBuffer, "foo".toList, 0⟩)
          "POST".toList (.ok ⟨200, [], []⟩)).2.2 ∧
      wedeploy.Event.transportCall "foo".toList ∈ (wedeploy.actionV1
          (wedeploy.actionV1
            ((wedeploy.URL "http://example.com/url".toList []).Body
              ⟨.bytesBuffer, "foo".toList, 0⟩)
            "POST".toList (.ok ⟨200, [], []⟩)).1
          "POST".toList (.ok ⟨200, [], []⟩)).2.2) ∧
    (wedeploy.actionV1
        ((wedeploy.URL "http://example.com/url".toList []).Body
          ⟨.stringsReader, "foo".toList, 0⟩)
        "POST".toList (.ok ⟨200, [], []⟩)).1.RequestBody
      = some ⟨.stringsReader, "foo".toList, "foo".toList.length⟩ := by
  constructor
  · have h := C10_buffer_snapshot_restore.1
      ((wedeploy.URL "http://example.com/url".toList []).Body
        ⟨.bytesBuffer, "foo".toList, 0⟩)
      "POST".toList (.ok ⟨200, [], []⟩) (.ok ⟨200, [], []⟩) "foo".toList 0
      ("http://example.com/url".toList, []) (by decide) (by decide) (by decide) (by decide)
    simpa using h
  · have h := C10_buffer_snapshot_restore.2
      ((wedeploy.URL "http://example.com/url".toList []).Body
        ⟨.stringsReader, "foo".toList, 0⟩)
      "POST".toList (.ok ⟨200, [], []⟩) wedeploy.ReaderKind.stringsReader "foo".toList 0
      ("http://example.com/url".toList, []) (by decide) (by decide) (by decide) (by decide)
      (by decide)
    simpa using h

namespace gostd

theorem filter_key_of_setValues (l : List (Str × Str)) (k v : Str) :
    (setValues l k v).filter (fun p => p.1 = k) = [(k, v)] := by
  unfold setValues
  rw [List.filter_append]
  have h1 : (l.filter fun p => p.1 ≠ k).filter (fun p => p.1 = k) = [] := by
    induction l with
    | nil => rfl
    | cons p t ih =>
      by_cases hk2 : p.1 = k
      · simp [hk2, ih]
      · simp [hk2, ih]
  rw [h1]
  simp

theorem parseURL_param_roundtrip (s pre raw enc : Str)
    (hp : parseURL s = some (pre, raw)) :
    parseURL (pre ++ '?' :: enc) = some (pre, enc) := by
  have hcut : '?' ∉ pre ∧ (pre = [] ∨ ∃ c p2, pre = c :: p2 ∧ c ≠ ':') := by
    cases s with
    | nil =>
      have hpre : pre = [] := by
        have := hp
        simp [parseURL, cutChar] at this
        exact this.1
      exact ⟨by simp [hpre], Or.inl hpre⟩
    | cons c rest =>
      by_cases hc : c = ':'
      · rw [parseURL] at hp
        simp [hc] at hp
      · rw [parseURL] at hp
        rw [if_neg hc, Option.some.injEq] at hp
        constructor
        · intro hm
          exact cutChar_fst_not_mem '?' (c :: rest) (by rw [hp]; exact hm)
        · by_cases hcq : c = '?'
          · left
            have hst : cutChar '?' (c :: rest) = ([], rest) := by
              simp [cutChar, hcq]
            rw [hst] at hp
            exact (congrArg Prod.fst hp).symm
          · right
            have hst : cutChar '?' (c :: rest)
                = (c :: (cutChar '?' rest).1, (cutChar '?' rest).2) := by
              simp [cutChar, hcq]
            rw [hst] at hp
            exact ⟨c, (cutChar '?' rest).1, (congrArg Prod.fst hp).symm, hc⟩
  obtain ⟨hnq, hshape⟩ := hcut
  rcases hshape with rfl | ⟨c, p2, rfl, hc⟩
  · simp [parseURL, cutChar]
  · have hnq2 : '?' ∉ p2 := fun hm => hnq (List.mem_cons_of_mem c hm)
    have hcq2 : c ≠ '?' := fun h => hnq (h ▸ List.mem_cons_self c p2)
    show parseURL (c :: (p2 ++ '?' :: enc)) = _
    rw [parseURL, if_neg hc]
    have hca : cutChar '?' (c :: (p2 ++ '?' :: enc))
        = (c :: (cutChar '?' (p2 ++ '?' :: enc)).1, (cutChar '?' (p2 ++ '?' :: enc)).2) := by
      simp [cutChar, hcq2]
    rw [hca, cutChar_append '?' p2 enc hnq2]

end gostd

/-- Claim C5: for every parseable url (in the modelled grammar, with
alphanumeric key and values and a well-formed query), Param(k, v1)
followed by Param(k, v2) leaves exactly one occurrence of the parameter
k in the resulting url, with value v2 — Param sets rather than appends. -/
theorem C5_param_overwrites (w : wedeploy.WeDeploy) (k v1 v2 pre raw : Str)
    (hp : gostd.parseURL w.URL = some (pre, raw))
    (hk : gostd.plainStr k = true) (hv1 : gostd.plainStr v1 = true)
    (hv2 : gostd.plainStr v2 = true)
    (hq : ∀ p ∈ gostd.parseQuery raw,
      gostd.plainStr p.1 = true ∧ gostd.plainStr p.2 = true) :
    ∃ enc : Str,
      ((w.Param k v1).Param k v2).URL = pre ++ '?' :: enc ∧
      (gostd.parseQuery enc).filter (fun p => p.1 = k) = [(k, v2)] := by
  have hq1plain : ∀ p ∈ gostd.setValues (gostd.parseQuery raw) k v1,
      gostd.plainStr p.1 = true ∧ gostd.plainStr p.2 = true := by
    intro p hpm
    unfold gostd.setValues at hpm
    rcases List.mem_append.mp hpm with hm | hm
    · exact hq p (List.mem_filter.mp hm).1
    · rw [List.mem_singleton.mp hm]
      exact ⟨hk, hv1⟩
  have hu1 : (w.Param k v1).URL
      = pre ++ '?' :: gostd.encodeValues (gostd.setValues (gostd.parseQuery raw) k v1) := by
    show wedeploy.ParamStr w.URL k v1 = _
    unfold wedeploy.ParamStr
    rw [hp]
  have hp2 : gostd.parseURL (w.Param k v1).URL
      = some (pre, gostd.encodeValues (gostd.setValues (gostd.parseQuery raw) k v1)) := by
    rw [hu1]
    exact gostd.parseURL_param_roundtrip w.URL pre raw _ hp
  have hu2 : ((w.Param k v1).Param k v2).URL
      = pre ++ '?' :: gostd.encodeValues (gostd.setValues
          (gostd.parseQuery (gostd.encodeValues
            (gostd.setValues (gostd.parseQuery raw) k v1))) k v2) := by
    show wedeploy.ParamStr (w.Param k v1).URL k v2 = _
    unfold wedeploy.ParamStr
    rw [hp2]
  have hpq1 : gostd.parseQuery (gostd.encodeValues
        (gostd.setValues (gostd.parseQuery raw) k v1))
      = gostd.sortByKey (gostd.setValues (gostd.parseQuery raw) k v1) :=
    gostd.parseQuery_encodeValues _ hq1plain
  have hq2plain : ∀ p ∈ gostd.setValues
        (gostd.sortByKey (gostd.setValues (gostd.parseQuery raw) k v1)) k v2,
      gostd.plainStr p.1 = true ∧ gostd.plainStr p.2 = true := by
    intro p hpm
    unfold gostd.setValues at hpm
    rcases List.mem_append.mp hpm with hm | hm
    · exact hq1plain p ((gostd.sortByKey_perm _).mem_iff.mp (List.mem_filter.mp hm).1)
    · rw [List.mem_singleton.mp hm]
      exact ⟨hk, hv2⟩
  have hpq2 : gostd.parseQuery (gostd.encodeValues (gostd.setValues
        (gostd.sortByKey (gostd.setValues (gostd.parseQuery raw) k v1)) k v2))
      = gostd.sortByKey (gostd.setValues
          (gostd.sortByKey (gostd.setValues (gostd.parseQuery raw) k v1)) k v2) :=
    gostd.parseQuery_encodeValues _ hq2plain
  refine ⟨gostd.encodeValues (gostd.setValues
      (gostd.sortByKey (gostd.setValues (gostd.parseQuery raw) k v1)) k v2), ?_, ?_⟩
  · rw [hu2, hpq1]
  · rw [hpq2]
    have hperm := (gostd.sortByKey_perm (gostd.setValues
        (gostd.sortByKey (gostd.setValues (gostd.parseQuery raw) k v1)) k v2)).filter
      (fun p => decide (p.1 = k))
    have hfq2 := gostd.filter_key_of_setValues
      (gostd.sortByKey (gostd.setValues (gostd.parseQuery raw) k v1)) k v2
    exact List.perm_singleton.mp (hfq2 ▸ hperm)

/-- Claim C5 (witness): the repository's TestParamOverwrite —
`Param("foo","bar")` then `Param("foo","bar3")` on
`http://example.com/xyz` leaves exactly `foo=bar3`, and the final url is
`http://example.com/xyz?foo=bar3`. -/
theorem C5_witness :
    (∃ enc : Str,
      (((wedeploy.URL "http://example.com/xyz".toList []).Param "foo".toList
            "bar".toList).Param "foo".toList "bar3".toList).URL
          = "http://example.com/xyz".toList ++ '?' :: enc ∧
        (gostd.parseQuery enc).filter (fun p => p.1 = "foo".toList)
          = [("foo".toList, "bar3".toList)]) ∧
      (((wedeploy.URL "http://example.com/xyz".toList []).Param "foo".toList
            "bar".toList).Param "foo".toList "bar3".toList).URL
        = "http://example.com/xyz?foo=bar3".toList := by
  constructor
  · exact C5_param_overwrites (wedeploy.URL "http://example.com/xyz".toList [])
      "foo".toList "bar".toList "bar3".toList "http://example.com/xyz".toList []
      (by decide) (by decide) (by decide) (by decide) (by decide)
  · decide
